import Mathlib

/-!
# Verification of the GAN-ster Q&A platform

A shallow embedding of the notification fan-out / @mention pipeline, the
moderation and auto-tagging glue, the search ranking, and the answer
voting / accepting route handlers of the repository, together with proofs
about them.

Modelling conventions:
* MongoDB collections are lists of documents; `find_one` is `List.find?`,
  `insert_one` appends, `update_one` updates the first match
  (`updateFirst`), `update_many` is a conditional `List.map`,
  `delete_one` is `List.eraseP`, `$pull` is `List.filter`.
* A route handler returns its (possibly unchanged) store together with
  `Except Nat α`: `.error c` models `raise HTTPException(status_code = c)`
  (which leaves the database untouched), `.ok` the success response.
* `datetime.now` timestamps are not modelled (no claim mentions them).
* Floating point scores are abstracted to `Int` (only their order and the
  branch taken on them matter to the claims).
* Python strings are Lean `String` / `List Char`; the `\w` character
  class and `str.isdigit` / `str.isalpha` / `str.lower` are modelled on
  the ASCII fragment, matching the Lean `Char` predicates.
-/

namespace GANster

/-- A user document (`users` collection; usernames are unique, enforced at
signup in `routes/auth.py`). -/
structure User where
  id : String
  username : String
  role : String
deriving DecidableEq

/-- A notification document, as built by `create_notification` in
`routes/notification.py`.  `ntype` is the `NotificationType.value` string
(`"answer"`, `"comment"`, `"mention"`, `"accepted_answer"`). -/
structure NotifDoc where
  user_id : String
  from_user_id : String
  ntype : String
  message : String
  question_id : Option String
  answer_id : Option String
  read : Bool
deriving DecidableEq

/-- An answer document (`answers` collection). -/
structure AnswerDoc where
  id : String
  question_id : String
  user_id : String
  content : String
  votes : Int
  is_accepted : Bool
deriving DecidableEq

/-- A question document (`questions` collection). -/
structure QuestionDoc where
  id : String
  title : String
  description : String
  tags : List String
  user_id : String
  answers : List String
  accepted_answer : Option String
deriving DecidableEq

/-- The document database. -/
structure Store where
  users : List User
  questions : List QuestionDoc
  answers : List AnswerDoc
  notifications : List NotifDoc
deriving DecidableEq

instance {ε α : Type} [DecidableEq ε] [DecidableEq α] :
    DecidableEq (Except ε α) := fun x y =>
  match x, y with
  | .ok a, .ok b =>
    if h : a = b then isTrue (h ▸ rfl) else isFalse (by simp [h])
  | .error a, .error b =>
    if h : a = b then isTrue (h ▸ rfl) else isFalse (by simp [h])
  | .ok _, .error _ => isFalse (by simp)
  | .error _, .ok _ => isFalse (by simp)

/-- `update_one`: apply `f` to the first element satisfying `p`. -/
def updateFirst (p : α → Bool) (f : α → α) : List α → List α
  | [] => []
  | x :: xs => if p x then f x :: xs else x :: updateFirst p f xs

/-- `create_notification` (routes/notification.py, lines 20-44): build the
notification document and insert it unless the user is notifying
themselves. -/
def create_notification (s : Store) (user_id from_user_id ntype message : String)
    (question_id answer_id : Option String) : Store :=
  let notification_doc : NotifDoc :=
    { user_id := user_id, from_user_id := from_user_id, ntype := ntype,
      message := message, question_id := question_id, answer_id := answer_id,
      read := false }
  if user_id ≠ from_user_id then
    { s with notifications := s.notifications ++ [notification_doc] }
  else s

/-- The notifications a transition `s → s'` appended to the collection. -/
def newNotifs (s s' : Store) : List NotifDoc :=
  s'.notifications.drop s.notifications.length

theorem newNotifs_of_append {s s' : Store} {t : List NotifDoc}
    (h : s'.notifications = s.notifications ++ t) : newNotifs s s' = t := by
  simp [newNotifs, h]

theorem newNotifs_refl (s : Store) : newNotifs s s = [] := by
  simp [newNotifs]

theorem create_notification_self {s : Store} {uid fid t m qid aid}
    (h : uid = fid) : create_notification s uid fid t m qid aid = s := by
  simp [create_notification, h]

theorem create_notification_ne {s : Store} {uid fid t m qid aid} (h : uid ≠ fid) :
    create_notification s uid fid t m qid aid =
      { s with notifications := s.notifications ++
          [{ user_id := uid, from_user_id := fid, ntype := t, message := m,
             question_id := qid, answer_id := aid, read := false }] } := by
  simp [create_notification, h]

theorem create_notification_append (s : Store) (uid fid t m qid aid) :
    ∃ l, create_notification s uid fid t m qid aid =
        { s with notifications := s.notifications ++ l } ∧
      ∀ n ∈ l, n.user_id = uid ∧ n.from_user_id = fid ∧ n.ntype = t ∧
        n.question_id = qid ∧ n.answer_id = aid ∧ n.user_id ≠ n.from_user_id := by
  by_cases h : uid = fid
  · refine ⟨[], ?_, by simp⟩
    simp [create_notification_self h]
  · refine ⟨_, create_notification_ne h, ?_⟩
    intro n hn
    simp only [List.mem_singleton] at hn
    subst hn
    exact ⟨rfl, rfl, rfl, rfl, rfl, h⟩

/-- The `\w` class of `re` (ASCII fragment): letters, digits, underscore. -/
def isWordChar (c : Char) : Bool := c.isAlphanum || c == '_'

/-- Scanner for `re.findall(r'@(\w+)', text)`: at each `@`, the longest
(greedy) nonempty run of word characters after it is a match, and scanning
resumes after the match (matches never overlap).  The fuel argument is the
length of the scanned text; each step consumes at least one character, so
the fuel never runs out before the text does. -/
def mentionsAux : Nat → List Char → List (List Char)
  | 0, _ => []
  | _ + 1, [] => []
  | fuel + 1, c :: rest =>
    if c == '@' then
      let w := rest.takeWhile isWordChar
      if w.isEmpty then mentionsAux fuel rest
      else w :: mentionsAux fuel (rest.drop w.length)
    else mentionsAux fuel rest

/-- `extract_mentions` (routes/notification.py, lines 47-51). -/
def extract_mentions (text : String) : List String :=
  (mentionsAux text.toList.length text.toList).map (fun w => String.mk w)

/-- `notify_new_answer` (routes/notification.py, lines 165-186). -/
def notify_new_answer (s : Store) (question_id answer_id answerer_id : String) :
    Store :=
  match s.questions.find? (fun q => q.id == question_id) with
  | none => s
  | some question =>
    let answerer_username :=
      match s.users.find? (fun u => u.id == answerer_id) with
      | some u => u.username
      | none => "Someone"
    let message := answerer_username ++ " answered your question: " ++ question.title
    create_notification s question.user_id answerer_id "answer" message
      (some question_id) (some answer_id)

/-- `notify_accepted_answer` (routes/notification.py, lines 188-214). -/
def notify_accepted_answer (s : Store) (answer_id question_author_id : String) :
    Store :=
  match s.answers.find? (fun a => a.id == answer_id) with
  | none => s
  | some answer =>
    match s.questions.find? (fun q => q.id == answer.question_id) with
    | none => s
    | some question =>
      let author_username :=
        match s.users.find? (fun u => u.id == question_author_id) with
        | some u => u.username
        | none => "Someone"
      let message := author_username ++ " accepted your answer to: " ++ question.title
      create_notification s answer.user_id question_author_id "accepted_answer"
        message (some answer.question_id) (some answer_id)

/-- One iteration of the `for username in mentions` loop of
`notify_mentions`: look the mentioned username up and create the
notification (which is skipped inside `create_notification` when the user
mentioned themselves). -/
def mentionStep (from_user_id from_username : String)
    (question_id answer_id : Option String) (st : Store) (username : String) :
    Store :=
  match st.users.find? (fun u => u.username == username) with
  | none => st
  | some mentioned_user =>
    create_notification st mentioned_user.id from_user_id "mention"
      (from_username ++ " mentioned you in a post") question_id answer_id

/-- `notify_mentions` (routes/notification.py, lines 216-241).  The early
`return` on an empty mention list coincides with folding over `[]`, and
looking the sender's username up before the loop is pure, so doing it even
when the list is empty does not change the result. -/
def notify_mentions (s : Store) (content : String) (from_user_id : String)
    (question_id answer_id : Option String) : Store :=
  let mentions := extract_mentions content
  let from_username :=
    match s.users.find? (fun u => u.id == from_user_id) with
    | some u => u.username
    | none => "Someone"
  mentions.foldl (mentionStep from_user_id from_username question_id answer_id) s

theorem mentionStep_append (fid fname qid aid) (st : Store) (m : String) :
    ∃ l, mentionStep fid fname qid aid st m =
        { st with notifications := st.notifications ++ l } ∧
      ∀ n ∈ l, n.from_user_id = fid ∧ n.ntype = "mention" ∧
        n.question_id = qid ∧ n.answer_id = aid ∧ n.user_id ≠ n.from_user_id := by
  unfold mentionStep
  cases hf : st.users.find? (fun u => u.username == m) with
  | none => exact ⟨[], by simp, by simp⟩
  | some u =>
    obtain ⟨l, hl, hprop⟩ := create_notification_append st u.id fid "mention"
      (fname ++ " mentioned you in a post") qid aid
    exact ⟨l, hl, fun n hn => ⟨(hprop n hn).2.1, (hprop n hn).2.2.1,
      (hprop n hn).2.2.2.1, (hprop n hn).2.2.2.2.1, (hprop n hn).2.2.2.2.2⟩⟩

theorem foldl_mentionStep_append (fid fname qid aid) :
    ∀ (ms : List String) (st : Store),
      ∃ l, ms.foldl (mentionStep fid fname qid aid) st =
          { st with notifications := st.notifications ++ l } ∧
        ∀ n ∈ l, n.from_user_id = fid ∧ n.ntype = "mention" ∧
          n.question_id = qid ∧ n.answer_id = aid ∧ n.user_id ≠ n.from_user_id
  | [], st => ⟨[], by simp, by simp⟩
  | m :: ms, st => by
    obtain ⟨l₀, hl₀, hp₀⟩ := mentionStep_append fid fname qid aid st m
    obtain ⟨l₁, hl₁, hp₁⟩ := foldl_mentionStep_append fid fname qid aid ms
      (mentionStep fid fname qid aid st m)
    refine ⟨l₀ ++ l₁, ?_, ?_⟩
    · rw [List.foldl_cons, hl₀]
      rw [hl₀] at hl₁
      simpa [List.append_assoc] using hl₁
    · intro n hn
      rcases List.mem_append.mp hn with h | h
      · exact hp₀ n h
      · exact hp₁ n h

theorem notify_mentions_append (s : Store) (content fid qid aid) :
    ∃ l, notify_mentions s content fid qid aid =
        { s with notifications := s.notifications ++ l } ∧
      ∀ n ∈ l, n.from_user_id = fid ∧ n.ntype = "mention" ∧
        n.question_id = qid ∧ n.answer_id = aid ∧ n.user_id ≠ n.from_user_id := by
  unfold notify_mentions
  exact foldl_mentionStep_append fid _ qid aid (extract_mentions content) s

theorem notify_new_answer_append (s : Store) (qid aid rid) :
    ∃ l, notify_new_answer s qid aid rid =
        { s with notifications := s.notifications ++ l } ∧
      ∀ n ∈ l, n.from_user_id = rid ∧ n.ntype = "answer" ∧
        n.user_id ≠ n.from_user_id := by
  unfold notify_new_answer
  cases hq : s.questions.find? (fun q => q.id == qid) with
  | none => exact ⟨[], by simp, by simp⟩
  | some q =>
    obtain ⟨l, hl, hp⟩ := create_notification_append s q.user_id rid "answer" _
      (some qid) (some aid)
    exact ⟨l, hl, fun n hn => ⟨(hp n hn).2.1, (hp n hn).2.2.1,
      (hp n hn).2.2.2.2.2⟩⟩

theorem notify_accepted_answer_append (s : Store) (aid qauthor) :
    ∃ l, notify_accepted_answer s aid qauthor =
        { s with notifications := s.notifications ++ l } ∧
      ∀ n ∈ l, n.from_user_id = qauthor ∧ n.ntype = "accepted_answer" ∧
        n.user_id ≠ n.from_user_id := by
  unfold notify_accepted_answer
  cases ha : s.answers.find? (fun a => a.id == aid) with
  | none => exact ⟨[], by simp, by simp⟩
  | some ans =>
    dsimp only
    cases hq : s.questions.find? (fun q => q.id == ans.question_id) with
    | none => exact ⟨[], by simp, by simp⟩
    | some q =>
      dsimp only
      obtain ⟨l, hl, hp⟩ := create_notification_append s ans.user_id qauthor
        "accepted_answer" _ (some ans.question_id) (some aid)
      exact ⟨l, hl, fun n hn => ⟨(hp n hn).2.1, (hp n hn).2.2.1,
        (hp n hn).2.2.2.2.2⟩⟩

theorem newNotifs_of_store_append {s s' : Store} {l : List NotifDoc}
    (h : s' = { s with notifications := s.notifications ++ l }) :
    newNotifs s s' = l := by
  subst h
  simp [newNotifs]

/-- C1.  No self-notification: a notification document built by
`create_notification` is only inserted when its recipient differs from its
sender — when they coincide the store is returned unchanged — and hence
every notification created through any of the three triggers
(`notify_new_answer`, `notify_accepted_answer`, `notify_mentions`) has a
recipient distinct from its sender. -/
theorem create_notification_no_self (s : Store)
    (user_id from_user_id ntype message : String)
    (question_id answer_id : Option String) :
    (user_id = from_user_id →
      create_notification s user_id from_user_id ntype message question_id
        answer_id = s) ∧
    (∀ n ∈ newNotifs s
        (create_notification s user_id from_user_id ntype message question_id
          answer_id),
      n.user_id ≠ n.from_user_id) ∧
    (∀ qid aid rid, ∀ n ∈ newNotifs s (notify_new_answer s qid aid rid),
      n.user_id ≠ n.from_user_id) ∧
    (∀ aid qauthor, ∀ n ∈ newNotifs s (notify_accepted_answer s aid qauthor),
      n.user_id ≠ n.from_user_id) ∧
    (∀ content fid qid aid,
      ∀ n ∈ newNotifs s (notify_mentions s content fid qid aid),
      n.user_id ≠ n.from_user_id) := by
  refine ⟨create_notification_self, ?_, ?_, ?_, ?_⟩
  · intro n hn
    obtain ⟨l, hl, hp⟩ := create_notification_append s user_id from_user_id
      ntype message question_id answer_id
    rw [newNotifs_of_store_append hl] at hn
    exact (hp n hn).2.2.2.2.2
  · intro qid aid rid n hn
    obtain ⟨l, hl, hp⟩ := notify_new_answer_append s qid aid rid
    rw [newNotifs_of_store_append hl] at hn
    exact (hp n hn).2.2
  · intro aid qauthor n hn
    obtain ⟨l, hl, hp⟩ := notify_accepted_answer_append s aid qauthor
    rw [newNotifs_of_store_append hl] at hn
    exact (hp n hn).2.2
  · intro content fid qid aid n hn
    obtain ⟨l, hl, hp⟩ := notify_mentions_append s content fid qid aid
    rw [newNotifs_of_store_append hl] at hn
    exact (hp n hn).2.2.2.2

/-- A concrete store used to instantiate the theorems: two users, one
question by alice, one answer by bob. -/
def wStore : Store :=
  { users := [⟨"u1", "alice", "user"⟩, ⟨"u2", "bob", "user"⟩],
    questions := [⟨"q1", "T", "D", [], "u1", [], none⟩],
    answers := [⟨"a1", "q1", "u2", "c", 0, false⟩],
    notifications := [] }

/-- The notification `notify_mentions wStore "hi @bob" "u1" none none`
creates. -/
def wNotif : NotifDoc :=
  ⟨"u2", "u1", "mention", "alice mentioned you in a post", none, none, false⟩

example : newNotifs wStore (notify_mentions wStore "hi @bob" "u1" none none)
    = [wNotif] := by decide

/-- Witness for C1: with sender equal to recipient the store is unchanged,
and the mention notification bob receives has a sender distinct from him. -/
theorem create_notification_no_self_witness :
    (create_notification wStore "u1" "u1" "answer" "m" none none = wStore) ∧
    wNotif.user_id ≠ wNotif.from_user_id :=
  ⟨(create_notification_no_self wStore "u1" "u1" "answer" "m" none none).1 rfl,
   (create_notification_no_self wStore "u1" "u1" "answer" "m" none none).2.2.2.2
     "hi @bob" "u1" none none wNotif (by decide)⟩

theorem key_inj {α β : Type} (key : α → β) {l : List α}
    (h : (l.map key).Nodup) {x y : α} (hx : x ∈ l) (hy : y ∈ l)
    (hk : key x = key y) : x = y := by
  induction l with
  | nil => cases hx
  | cons a t ih =>
    simp only [List.map_cons, List.nodup_cons, List.mem_map] at h
    rcases List.mem_cons.mp hx with rfl | hx' <;>
      rcases List.mem_cons.mp hy with rfl | hy'
    · rfl
    · exact absurd ⟨y, hy', hk.symm⟩ h.1
    · exact absurd ⟨x, hx', hk⟩ h.1
    · exact ih h.2 hx' hy'

theorem find?_key_eq {α β : Type} [DecidableEq β] (key : α → β) {l : List α}
    {u : α} (hnd : (l.map key).Nodup) (hu : u ∈ l) :
    l.find? (fun x => key x == key u) = some u := by
  induction l with
  | nil => cases hu
  | cons a t ih =>
    simp only [List.map_cons, List.nodup_cons, List.mem_map] at hnd
    by_cases ha : key a = key u
    · have : a = u := by
        rcases List.mem_cons.mp hu with rfl | hu'
        · rfl
        · exact absurd ⟨u, hu', ha.symm⟩ hnd.1
      rw [List.find?_cons_of_pos _ (by simp [ha]), this]
    · have hu' : u ∈ t := by
        rcases List.mem_cons.mp hu with rfl | hu'
        · exact absurd rfl ha
        · exact hu'
      rw [List.find?_cons_of_neg _ (by simp [ha])]
      exact ih hnd.2 hu'

theorem foldl_mentionStep_count (fid fname : String) (qid aid : Option String)
    (u : User) (hufid : u.id ≠ fid) :
    ∀ (ms : List String) (st : Store),
      st.users.find? (fun x => x.username == u.username) = some u →
      (st.users.map (fun x => x.id)).Nodup →
      ∃ l, ms.foldl (mentionStep fid fname qid aid) st =
          { st with notifications := st.notifications ++ l } ∧
        l.countP (fun n => n.user_id == u.id) = ms.count u.username ∧
        ∀ n ∈ l, n.from_user_id = fid ∧ n.ntype = "mention"
  | [], st, _, _ => ⟨[], by simp, by simp, by simp⟩
  | m :: ms, st, hfind, hids => by
    by_cases hm : m = u.username
    · have hstep : mentionStep fid fname qid aid st m =
          { st with notifications := st.notifications ++
              [⟨u.id, fid, "mention", fname ++ " mentioned you in a post",
                qid, aid, false⟩] } := by
        unfold mentionStep
        rw [hm, hfind]
        exact create_notification_ne hufid
      obtain ⟨l₁, hl₁, hc₁, hp₁⟩ := foldl_mentionStep_count fid fname qid aid u
        hufid ms (mentionStep fid fname qid aid st m)
        (by rw [hstep]; exact hfind) (by rw [hstep]; exact hids)
      refine ⟨⟨u.id, fid, "mention", fname ++ " mentioned you in a post",
          qid, aid, false⟩ :: l₁, ?_, ?_, ?_⟩
      · rw [List.foldl_cons, hl₁, hstep]
        simp
      · rw [List.countP_cons_of_pos _ _ (by simp), hc₁, hm,
          List.count_cons_self]
      · intro n hn
        rcases List.mem_cons.mp hn with rfl | h
        · exact ⟨rfl, rfl⟩
        · exact hp₁ n h
    · have hcnt : (m :: ms).count u.username = ms.count u.username :=
        List.count_cons_of_ne (fun h => hm h.symm) ms
      cases hw : st.users.find? (fun x => x.username == m) with
      | none =>
        have hstep : mentionStep fid fname qid aid st m = st := by
          unfold mentionStep
          rw [hw]
        obtain ⟨l₁, hl₁, hc₁, hp₁⟩ := foldl_mentionStep_count fid fname qid aid
          u hufid ms st hfind hids
        refine ⟨l₁, ?_, ?_, hp₁⟩
        · rw [List.foldl_cons, hstep, hl₁]
        · rw [hc₁, hcnt]
      | some w =>
        have hwm : w.username = m := by
          have := List.find?_some hw
          simpa using this
        have hwmem : w ∈ st.users := List.mem_of_find?_eq_some hw
        have humem : u ∈ st.users := List.mem_of_find?_eq_some hfind
        have hwid : w.id ≠ u.id := by
          intro h
          exact hm ((key_inj (fun x : User => x.id) hids hwmem humem h) ▸ hwm).symm
        have hstep : mentionStep fid fname qid aid st m =
            create_notification st w.id fid "mention"
              (fname ++ " mentioned you in a post") qid aid := by
          unfold mentionStep
          rw [hw]
        obtain ⟨l₀, hl₀, hp₀⟩ := create_notification_append st w.id fid
          "mention" (fname ++ " mentioned you in a post") qid aid
        obtain ⟨l₁, hl₁, hc₁, hp₁⟩ := foldl_mentionStep_count fid fname qid aid
          u hufid ms (mentionStep fid fname qid aid st m)
          (by rw [hstep, hl₀]; exact hfind) (by rw [hstep, hl₀]; exact hids)
        refine ⟨l₀ ++ l₁, ?_, ?_, ?_⟩
        · rw [List.foldl_cons, hl₁, hstep, hl₀]
          simp [List.append_assoc]
        · rw [List.countP_append, hc₁, hcnt,
            List.countP_eq_zero.mpr (fun n hn => by
              simp [(hp₀ n hn).1, hwid]), Nat.zero_add]
        · intro n hn
          rcases List.mem_append.mp hn with h | h
          · exact ⟨(hp₀ n h).2.1, (hp₀ n h).2.2.1⟩
          · exact hp₁ n h

/-- Counterexample to C2 as stated: mentioning `@bob` twice in one content
string makes `notify_mentions` insert two mention notifications for bob in
a single call. -/
theorem notify_mentions_duplicate_cex :
    ¬ ((newNotifs wStore
          (notify_mentions wStore "@bob and @bob" "u1" none none)).countP
        (fun n => n.user_id == "u2" && n.ntype == "mention") ≤ 1) := by
  decide

/-- C2 (amended).  `notify_mentions` does not deduplicate the mention
list: a mentioned existing user (distinct from the sender) receives
exactly one mention notification per occurrence of their `@username` in
the content, so duplicated mentions yield duplicated notifications. -/
theorem notify_mentions_per_occurrence (s : Store) (content fid : String)
    (qid aid : Option String) (u : User)
    (hfind : s.users.find? (fun x => x.username == u.username) = some u)
    (hids : (s.users.map (fun x => x.id)).Nodup)
    (hne : u.id ≠ fid) :
    (newNotifs s (notify_mentions s content fid qid aid)).countP
        (fun n => n.user_id == u.id) =
      (extract_mentions content).count u.username := by
  obtain ⟨l, hl, hc, _⟩ := foldl_mentionStep_count fid
    (match s.users.find? (fun x => x.id == fid) with
     | some x => x.username
     | none => "Someone") qid aid u hne (extract_mentions content) s hfind hids
  have hl' : notify_mentions s content fid qid aid =
      { s with notifications := s.notifications ++ l } := hl
  rw [newNotifs_of_store_append hl']
  exact hc

/-- Witness for C2's amended theorem at a concrete store and content. -/
theorem notify_mentions_per_occurrence_witness :
    (newNotifs wStore
        (notify_mentions wStore "@bob and @bob" "u1" none none)).countP
      (fun n => n.user_id == "u2") =
      (extract_mentions "@bob and @bob").count "bob" ∧
    (extract_mentions "@bob and @bob").count "bob" = 2 :=
  ⟨notify_mentions_per_occurrence wStore "@bob and @bob" "u1" none none
      ⟨"u2", "bob", "user"⟩ (by decide) (by decide) (by decide), by decide⟩

/-- C4.  Notification fan-out targets: answering a found question notifies
its author (when distinct from the answerer) with an `"answer"`
notification; accepting a found answer notifies the answer's author (when
distinct from the accepting question author) with an `"accepted_answer"`
notification; and every existing user whose unique username is mentioned
in the content is notified (when distinct from the sender) with a
`"mention"` notification. -/
theorem notify_fanout_targets :
    (∀ (s : Store) (question_id answer_id answerer_id : String)
        (q : QuestionDoc),
      s.questions.find? (fun x => x.id == question_id) = some q →
      q.user_id ≠ answerer_id →
      ∃ n ∈ newNotifs s (notify_new_answer s question_id answer_id answerer_id),
        n.user_id = q.user_id ∧ n.from_user_id = answerer_id ∧
          n.ntype = "answer") ∧
    (∀ (s : Store) (answer_id question_author_id : String) (ans : AnswerDoc)
        (q : QuestionDoc),
      s.answers.find? (fun x => x.id == answer_id) = some ans →
      s.questions.find? (fun x => x.id == ans.question_id) = some q →
      ans.user_id ≠ question_author_id →
      ∃ n ∈ newNotifs s
          (notify_accepted_answer s answer_id question_author_id),
        n.user_id = ans.user_id ∧ n.from_user_id = question_author_id ∧
          n.ntype = "accepted_answer") ∧
    (∀ (s : Store) (content from_user_id : String) (qid aid : Option String)
        (u : User),
      u ∈ s.users →
      (s.users.map (fun x : User => x.username)).Nodup →
      (s.users.map (fun x : User => x.id)).Nodup →
      u.username ∈ extract_mentions content →
      u.id ≠ from_user_id →
      ∃ n ∈ newNotifs s (notify_mentions s content from_user_id qid aid),
        n.user_id = u.id ∧ n.from_user_id = from_user_id ∧
          n.ntype = "mention") := by
  refine ⟨?_, ?_, ?_⟩
  · intro s qid aid rid q hq hne
    unfold notify_new_answer
    rw [hq]
    dsimp only
    rw [newNotifs_of_store_append (create_notification_ne hne)]
    exact ⟨_, List.mem_singleton_self _, rfl, rfl, rfl⟩
  · intro s aid qauthor ans q ha hq hne
    unfold notify_accepted_answer
    rw [ha]
    dsimp only
    rw [hq]
    dsimp only
    rw [newNotifs_of_store_append (create_notification_ne hne)]
    exact ⟨_, List.mem_singleton_self _, rfl, rfl, rfl⟩
  · intro s content fid qid aid u humem hnames hids hmention hne
    have hfind : s.users.find? (fun x => x.username == u.username) = some u :=
      find?_key_eq (fun x : User => x.username) hnames humem
    obtain ⟨l, hl, hc, hp⟩ := foldl_mentionStep_count fid
      (match s.users.find? (fun x => x.id == fid) with
       | some x => x.username
       | none => "Someone") qid aid u hne (extract_mentions content) s hfind
      hids
    have hl' : notify_mentions s content fid qid aid =
        { s with notifications := s.notifications ++ l } := hl
    rw [newNotifs_of_store_append hl']
    have hpos : 0 < l.countP (fun n => n.user_id == u.id) := by
      rw [hc]
      exact List.count_pos_iff.mpr hmention
    obtain ⟨n, hn, hid⟩ := List.countP_pos_iff.mp hpos
    exact ⟨n, hn, eq_of_beq hid, (hp n hn).1, (hp n hn).2⟩

/-- Witness for C4 at the concrete store `wStore`: instantiates all three
fan-out conjuncts and all their hypotheses. -/
theorem notify_fanout_targets_witness :
    (∃ n ∈ newNotifs wStore (notify_new_answer wStore "q1" "a1" "u2"),
      n.user_id = "u1" ∧ n.from_user_id = "u2" ∧ n.ntype = "answer") ∧
    (∃ n ∈ newNotifs wStore (notify_accepted_answer wStore "a1" "u1"),
      n.user_id = "u2" ∧ n.from_user_id = "u1" ∧
        n.ntype = "accepted_answer") ∧
    (∃ n ∈ newNotifs wStore (notify_mentions wStore "hi @bob" "u1" none none),
      n.user_id = "u2" ∧ n.from_user_id = "u1" ∧ n.ntype = "mention") :=
  ⟨notify_fanout_targets.1 wStore "q1" "a1" "u2" ⟨"q1", "T", "D", [], "u1", [], none⟩
     (by decide) (by decide),
   notify_fanout_targets.2.1 wStore "a1" "u1" ⟨"a1", "q1", "u2", "c", 0, false⟩
     ⟨"q1", "T", "D", [], "u1", [], none⟩ (by decide) (by decide) (by decide),
   notify_fanout_targets.2.2 wStore "hi @bob" "u1" none none
     ⟨"u2", "bob", "user"⟩ (by decide) (by decide) (by decide) (by decide)
     (by decide)⟩

theorem notify_new_answer_users (s : Store) (qid aid rid : String) :
    (notify_new_answer s qid aid rid).users = s.users := by
  obtain ⟨l, hl, _⟩ := notify_new_answer_append s qid aid rid
  rw [hl]

theorem notify_new_answer_answers (s : Store) (qid aid rid : String) :
    (notify_new_answer s qid aid rid).answers = s.answers := by
  obtain ⟨l, hl, _⟩ := notify_new_answer_append s qid aid rid
  rw [hl]

theorem notify_new_answer_questions (s : Store) (qid aid rid : String) :
    (notify_new_answer s qid aid rid).questions = s.questions := by
  obtain ⟨l, hl, _⟩ := notify_new_answer_append s qid aid rid
  rw [hl]

theorem notify_mentions_answers (s : Store) (content fid : String)
    (qid aid : Option String) :
    (notify_mentions s content fid qid aid).answers = s.answers := by
  obtain ⟨l, hl, _⟩ := notify_mentions_append s content fid qid aid
  rw [hl]

theorem notify_mentions_questions (s : Store) (content fid : String)
    (qid aid : Option String) :
    (notify_mentions s content fid qid aid).questions = s.questions := by
  obtain ⟨l, hl, _⟩ := notify_mentions_append s content fid qid aid
  rw [hl]

theorem notify_accepted_answer_answers (s : Store) (aid qauthor : String) :
    (notify_accepted_answer s aid qauthor).answers = s.answers := by
  obtain ⟨l, hl, _⟩ := notify_accepted_answer_append s aid qauthor
  rw [hl]

theorem notify_accepted_answer_questions (s : Store) (aid qauthor : String) :
    (notify_accepted_answer s aid qauthor).questions = s.questions := by
  obtain ⟨l, hl, _⟩ := notify_accepted_answer_append s aid qauthor
  rw [hl]

theorem find?_updateFirst (p : α → Bool) (f : α → α)
    (hp : ∀ x, p x = true → p (f x) = true) :
    ∀ l : List α, (updateFirst p f l).find? p = (l.find? p).map f := by
  intro l
  induction l with
  | nil => rfl
  | cons x xs ih =>
    by_cases hx : p x = true
    · rw [updateFirst, if_pos hx, List.find?_cons_of_pos _ (hp x hx),
        List.find?_cons_of_pos _ hx]
      rfl
    · rw [updateFirst, if_neg hx,
        List.find?_cons_of_neg _ (by simpa using hx),
        List.find?_cons_of_neg _ (by simpa using hx), ih]

/-- Which (if any) of the two notification steps of `create_answer` raises
an exception.  The `try` block of routes/answer.py lines 115-121 catches
the exception and continues, so a raising step performs no insert and the
following step is never reached, while the answer creation still succeeds. -/
inductive NotifyFault where
  | noFault
  | newAnswerStep
  | mentionsStep
deriving DecidableEq

/-- Environment of `create_answer`: the external toxicity classifier (the
`try/except` fallback `(False, 0.0)` on classifier errors is one possible
value of this function), the ObjectId generated by `insert_one`, and the
fault scenario for the notification block. -/
structure AnswerEnv where
  isToxic : String → Bool × Int
  newId : String
  fault : NotifyFault

/-- The database writes of `create_answer`'s success path before the
notification block: `insert_one` of the answer document and the `$push` of
its id onto the question's `answers` array. -/
def insertAnswer (env : AnswerEnv) (s : Store)
    (question_id content user_id : String) : Store :=
  let answer_doc : AnswerDoc :=
    ⟨env.newId, question_id, user_id, content, 0, false⟩
  let s1 := { s with answers := s.answers ++ [answer_doc] }
  let qpush := updateFirst (fun q => q.id == question_id)
    (fun q => { q with answers := q.answers ++ [env.newId] }) s1.questions
  { s1 with questions := qpush }

/-- The store after `create_answer`'s success path: the inserts followed
by the notification block under the chosen fault scenario (a raising step
performs no insert and aborts the rest of the `try` block). -/
def create_answer_success (env : AnswerEnv) (s : Store)
    (question_id content user_id : String) : Store :=
  match env.fault with
  | .newAnswerStep => insertAnswer env s question_id content user_id
  | .mentionsStep =>
    notify_new_answer (insertAnswer env s question_id content user_id)
      question_id env.newId user_id
  | .noFault =>
    notify_mentions
      (notify_new_answer (insertAnswer env s question_id content user_id)
        question_id env.newId user_id)
      content user_id (some question_id) (some env.newId)

/-- `create_answer` (routes/answer.py, lines 52-143): verify the question
exists, run moderation, insert the answer document, push its id onto the
question's `answers` array, then trigger `notify_new_answer` and
`notify_mentions` inside a `try/except: pass` block.  The timestamp and
the monitoring fields of the inserted document are not modelled; only the
fields of the `AnswerDoc` model are kept. -/
def create_answer (env : AnswerEnv) (s : Store)
    (question_id content user_id : String) : Store × Except Nat AnswerDoc :=
  match s.questions.find? (fun q => q.id == question_id) with
  | none => (s, .error 404)
  | some _ =>
    let tox := env.isToxic content
    if tox.1 then (s, .error 400)
    else
      (create_answer_success env s question_id content user_id,
       .ok ⟨env.newId, question_id, user_id, content, 0, false⟩)

theorem create_answer_eq_ok (env : AnswerEnv) (s : Store)
    {question_id : String} (content user_id : String) {q : QuestionDoc}
    (hq : s.questions.find? (fun x => x.id == question_id) = some q)
    (htox : (env.isToxic content).1 = false) :
    create_answer env s question_id content user_id =
      (create_answer_success env s question_id content user_id,
       .ok ⟨env.newId, question_id, user_id, content, 0, false⟩) := by
  unfold create_answer
  rw [hq]
  simp [htox]

theorem insertAnswer_find? (env : AnswerEnv) (s : Store)
    {question_id : String} (content user_id : String) {q : QuestionDoc}
    (hq : s.questions.find? (fun x => x.id == question_id) = some q) :
    (insertAnswer env s question_id content user_id).questions.find?
        (fun x => x.id == question_id) =
      some { q with answers := q.answers ++ [env.newId] } := by
  show (updateFirst (fun x => x.id == question_id)
      (fun x => { x with answers := x.answers ++ [env.newId] })
      s.questions).find? (fun x => x.id == question_id) = _
  rw [find?_updateFirst (fun x : QuestionDoc => x.id == question_id)
    (fun x => { x with answers := x.answers ++ [env.newId] })
    (fun x hx => hx), hq]
  rfl

/-- The environment of the C3 counterexample: moderation passes, and the
`notify_new_answer` call raises (e.g. a database error), which the
`except: pass` of routes/answer.py lines 119-121 swallows. -/
def cexAnswerEnv : AnswerEnv :=
  ⟨fun _ => (false, 1), "a9", NotifyFault.newAnswerStep⟩

/-- Counterexample to C3 as stated: on `wStore` the question `q1` belongs
to `u1` and the answerer is `u2`, so a new-answer notification is due; but
with the notification step failing, `create_answer` still succeeds while
no notification at all is created — the notification is silently
dropped. -/
theorem create_answer_dropped_notification_cex :
    wStore.questions.find? (fun x => x.id == "q1") =
      some ⟨"q1", "T", "D", [], "u1", [], none⟩ ∧
    ("u1" : String) ≠ "u2" ∧
    (create_answer cexAnswerEnv wStore "q1" "thanks" "u2").2.toOption =
      some ⟨"a9", "q1", "u2", "thanks", 0, false⟩ ∧
    (create_answer cexAnswerEnv wStore "q1" "thanks" "u2").1.notifications
      = [] := by
  decide

/-- C3 (amended).  When `create_answer` succeeds, the answer is inserted
whatever happens in the notification block; when the notification block
raises no exception, the new-answer notification to the question author
(when distinct from the answerer) and the mention notifications to every
uniquely-named mentioned user (when distinct from the answerer) are all
created.  When a notification step raises, the `except: pass` swallows the
failure: the answer creation still succeeds but the notifications of the
failing and following steps are silently dropped (see the
counterexample). -/
theorem create_answer_notifications_ok (env : AnswerEnv) (s : Store)
    (question_id content user_id : String) (q : QuestionDoc)
    (hq : s.questions.find? (fun x => x.id == question_id) = some q)
    (htox : (env.isToxic content).1 = false) :
    (∃ a, (create_answer env s question_id content user_id).2 = .ok a ∧
      a ∈ (create_answer env s question_id content user_id).1.answers) ∧
    (env.fault = .noFault → q.user_id ≠ user_id →
      ∃ n ∈ newNotifs s (create_answer env s question_id content user_id).1,
        n.user_id = q.user_id ∧ n.from_user_id = user_id ∧
          n.ntype = "answer") ∧
    (env.fault = .noFault →
      ∀ u ∈ s.users,
        (s.users.map (fun x : User => x.username)).Nodup →
        (s.users.map (fun x : User => x.id)).Nodup →
        u.username ∈ extract_mentions content →
        u.id ≠ user_id →
        ∃ n ∈ newNotifs s (create_answer env s question_id content user_id).1,
          n.user_id = u.id ∧ n.from_user_id = user_id ∧
            n.ntype = "mention") := by
  rw [create_answer_eq_ok env s content user_id hq htox]
  refine ⟨⟨⟨env.newId, question_id, user_id, content, 0, false⟩, rfl, ?_⟩,
    ?_, ?_⟩
  · cases hf : env.fault <;>
      simp [create_answer_success, hf, notify_mentions_answers,
        notify_new_answer_answers, insertAnswer]
  · intro hf hne
    have hsucc : create_answer_success env s question_id content user_id =
        notify_mentions
          (notify_new_answer (insertAnswer env s question_id content user_id)
            question_id env.newId user_id)
          content user_id (some question_id) (some env.newId) := by
      unfold create_answer_success
      rw [hf]
    obtain ⟨d, hd, hdu, hdf, hdt⟩ :
        ∃ d : NotifDoc,
          notify_new_answer (insertAnswer env s question_id content user_id)
              question_id env.newId user_id =
            { insertAnswer env s question_id content user_id with
              notifications :=
                (insertAnswer env s question_id content user_id).notifications
                  ++ [d] } ∧
          d.user_id = q.user_id ∧ d.from_user_id = user_id ∧
            d.ntype = "answer" := by
      unfold notify_new_answer
      rw [insertAnswer_find? env s content user_id hq]
      dsimp only
      exact ⟨_, create_notification_ne hne, rfl, rfl, rfl⟩
    obtain ⟨l₂, hl₂, _⟩ := notify_mentions_append
      (notify_new_answer (insertAnswer env s question_id content user_id)
        question_id env.newId user_id) content user_id (some question_id)
      (some env.newId)
    rw [hsucc, hl₂, hd]
    have hnew : newNotifs s
        { insertAnswer env s question_id content user_id with
          notifications :=
            ((insertAnswer env s question_id content user_id).notifications
              ++ [d]) ++ l₂ } = [d] ++ l₂ := by
      rw [newNotifs]
      show ((s.notifications ++ [d]) ++ l₂).drop s.notifications.length = _
      rw [List.append_assoc]
      exact List.drop_left s.notifications ([d] ++ l₂)
    rw [hnew]
    exact ⟨d, List.mem_append_left _ (List.mem_singleton_self d), hdu, hdf,
      hdt⟩
  · intro hf u humem hnames hids hmention hne
    have hsucc : create_answer_success env s question_id content user_id =
        notify_mentions
          (notify_new_answer (insertAnswer env s question_id content user_id)
            question_id env.newId user_id)
          content user_id (some question_id) (some env.newId) := by
      unfold create_answer_success
      rw [hf]
    obtain ⟨l₁, hl₁, _⟩ := notify_new_answer_append
      (insertAnswer env s question_id content user_id) question_id env.newId
      user_id
    have husers :
        (notify_new_answer (insertAnswer env s question_id content user_id)
          question_id env.newId user_id).users = s.users := by
      rw [hl₁]
      rfl
    have hfind :
        (notify_new_answer (insertAnswer env s question_id content user_id)
            question_id env.newId user_id).users.find?
          (fun x => x.username == u.username) = some u := by
      rw [husers]
      exact find?_key_eq (fun x : User => x.username) hnames humem
    obtain ⟨l₂, hl₂, hc₂, hp₂⟩ := foldl_mentionStep_count user_id
      (match (notify_new_answer
          (insertAnswer env s question_id content user_id) question_id
          env.newId user_id).users.find? (fun x => x.id == user_id) with
       | some x => x.username
       | none => "Someone") (some question_id) (some env.newId) u hne
      (extract_mentions content)
      (notify_new_answer (insertAnswer env s question_id content user_id)
        question_id env.newId user_id)
      hfind (by rw [husers]; exact hids)
    have hl₂' : notify_mentions
        (notify_new_answer (insertAnswer env s question_id content user_id)
          question_id env.newId user_id)
        content user_id (some question_id) (some env.newId) =
        { notify_new_answer (insertAnswer env s question_id content user_id)
            question_id env.newId user_id with
          notifications :=
            (notify_new_answer (insertAnswer env s question_id content user_id)
              question_id env.newId user_id).notifications ++ l₂ } := hl₂
    rw [hsucc, hl₂', hl₁]
    have hnew : newNotifs s
        { insertAnswer env s question_id content user_id with
          notifications :=
            ((insertAnswer env s question_id content user_id).notifications
              ++ l₁) ++ l₂ } = l₁ ++ l₂ := by
      rw [newNotifs]
      show ((s.notifications ++ l₁) ++ l₂).drop s.notifications.length = _
      rw [List.append_assoc]
      exact List.drop_left s.notifications (l₁ ++ l₂)
    rw [hnew]
    have hpos : 0 < l₂.countP (fun n => n.user_id == u.id) := by
      rw [hc₂]
      exact List.count_pos_iff.mpr hmention
    obtain ⟨n, hn, hid⟩ := List.countP_pos_iff.mp hpos
    exact ⟨n, List.mem_append_right l₁ hn, eq_of_beq hid, (hp₂ n hn).1,
      (hp₂ n hn).2⟩

/-- The environment of the C3 witness: moderation passes and no
notification step fails. -/
def okAnswerEnv : AnswerEnv := ⟨fun _ => (false, 1), "a9", NotifyFault.noFault⟩

/-- Witness for C3's amended theorem: on `wStore`, answering alice's
question `q1` as bob with content mentioning `@alice` inserts the answer,
notifies alice of the new answer, and notifies her of the mention. -/
theorem create_answer_notifications_ok_witness :
    (∃ a, (create_answer okAnswerEnv wStore "q1" "hi @alice" "u2").2 =
        .ok a ∧
      a ∈ (create_answer okAnswerEnv wStore "q1" "hi @alice" "u2").1.answers) ∧
    (∃ n ∈ newNotifs wStore
        (create_answer okAnswerEnv wStore "q1" "hi @alice" "u2").1,
      n.user_id = "u1" ∧ n.from_user_id = "u2" ∧ n.ntype = "answer") ∧
    (∃ n ∈ newNotifs wStore
        (create_answer okAnswerEnv wStore "q1" "hi @alice" "u2").1,
      n.user_id = "u1" ∧ n.from_user_id = "u2" ∧ n.ntype = "mention") :=
  ⟨(create_answer_notifications_ok okAnswerEnv wStore "q1" "hi @alice" "u2"
      ⟨"q1", "T", "D", [], "u1", [], none⟩ (by decide) (by decide)).1,
   (create_answer_notifications_ok okAnswerEnv wStore "q1" "hi @alice" "u2"
      ⟨"q1", "T", "D", [], "u1", [], none⟩ (by decide) (by decide)).2.1 rfl
     (by decide),
   (create_answer_notifications_ok okAnswerEnv wStore "q1" "hi @alice" "u2"
      ⟨"q1", "T", "D", [], "u1", [], none⟩ (by decide) (by decide)).2.2 rfl
     ⟨"u1", "alice", "user"⟩ (by decide) (by decide) (by decide) (by decide)
     (by decide)⟩

def isPrefixL : List Char → List Char → Bool
  | [], _ => true
  | _ :: _, [] => false
  | x :: xs, y :: ys => x == y && isPrefixL xs ys

/-- Python's substring test `w in s`. -/
def isInfixL (w s : List Char) : Bool :=
  match s with
  | [] => w.isEmpty
  | _ :: rest => isPrefixL w s || isInfixL w rest

/-- The fallback branch of `is_toxic` (models/toxic_spam_model.py, lines
18-26): flag the text when any of five toxic words occurs in its
lower-cased form.  The float scores 0.8 / 0.1 are scaled by ten to `Int`.
The transformer branch is an external classifier; route-level theorems are
stated for an arbitrary classifier function, and this fallback is used to
instantiate them. -/
def is_toxic (text : String) : Bool × Int :=
  let toxic_words := ["spam", "hate", "toxic", "abuse", "inappropriate"]
  let text_lower := text.toList.map Char.toLower
  if toxic_words.any (fun word => isInfixL word.toList text_lower) then
    (true, 8)
  else (false, 1)

/-- Environment of `create_question`: the toxicity classifier, the AI tag
suggester (`auto_tag_question` at `top_k = 8`, an external model), and the
ObjectId generated by `insert_one`. -/
structure QuestionEnv where
  isToxic : String → Bool × Int
  autoTag : String → String → List String
  newId : String

/-- `create_question` (routes/question.py, lines 32-101): moderate
`title + " " + description`, raise 400 when toxic, otherwise combine the
user tags with the AI suggestions — `list(set(user + ai))[:10]` — insert
the question document and notify the users mentioned in the combined text.
Python's `list(set(xs))` produces the distinct elements of `xs` in an
unspecified order; it is modelled canonically as `List.dedup`, and only
order-independent properties of the tag list are proved. -/
def create_question (env : QuestionEnv) (s : Store)
    (title description : String) (tags : List String) (user_id : String) :
    Store × Except Nat QuestionDoc :=
  let combined_text := title ++ " " ++ description
  let tox := env.isToxic combined_text
  if tox.1 then (s, .error 400)
  else
    let ai_suggested_tags := env.autoTag title description
    let final_tags := ((tags ++ ai_suggested_tags).dedup).take 10
    let question_doc : QuestionDoc :=
      ⟨env.newId, title, description, final_tags, user_id, [], none⟩
    let s1 := { s with questions := s.questions ++ [question_doc] }
    (notify_mentions s1 combined_text user_id (some env.newId) none,
     .ok question_doc)

/-- C6.  Toxicity moderation gates question creation atomically: when the
classifier flags `title + " " + description` the handler answers 400 and
the store is completely unchanged (no question inserted, no notification
created); when it does not, the question document is inserted. -/
theorem create_question_toxicity_gate (env : QuestionEnv) (s : Store)
    (title description : String) (tags : List String) (user_id : String) :
    ((env.isToxic (title ++ " " ++ description)).1 = true →
      create_question env s title description tags user_id =
        (s, .error 400)) ∧
    ((env.isToxic (title ++ " " ++ description)).1 = false →
      ∃ q, (create_question env s title description tags user_id).2 =
          .ok q ∧
        (create_question env s title description tags user_id).1.questions =
          s.questions ++ [q] ∧
        q.title = title ∧ q.description = description ∧
          q.user_id = user_id) := by
  constructor
  · intro h
    unfold create_question
    simp [h]
  · intro h
    have hred : create_question env s title description tags user_id =
        (notify_mentions
          { s with questions := s.questions ++
              [⟨env.newId, title, description,
                ((tags ++ env.autoTag title description).dedup).take 10,
                user_id, [], none⟩] }
          (title ++ " " ++ description) user_id (some env.newId) none,
         .ok ⟨env.newId, title, description,
            ((tags ++ env.autoTag title description).dedup).take 10,
            user_id, [], none⟩) := by
      unfold create_question
      simp [h]
    rw [hred]
    refine ⟨_, rfl, ?_, rfl, rfl, rfl⟩
    rw [notify_mentions_questions]

/-- A concrete question environment: the modelled fallback classifier, a
constant AI tag suggestion, and a fresh id. -/
def qEnv : QuestionEnv := ⟨is_toxic, fun _ _ => ["ai"], "q9"⟩

/-- Witness for C6: a title containing "spam" is rejected with 400 and the
store untouched; an innocuous question is inserted. -/
theorem create_question_toxicity_gate_witness :
    (create_question qEnv wStore "spam alert" "description" [] "u1" =
      (wStore, .error 400)) ∧
    (∃ q, (create_question qEnv wStore "hello" "world" [] "u1").2 = .ok q ∧
      (create_question qEnv wStore "hello" "world" [] "u1").1.questions =
        wStore.questions ++ [q] ∧
      q.title = "hello" ∧ q.description = "world" ∧ q.user_id = "u1") :=
  ⟨(create_question_toxicity_gate qEnv wStore "spam alert" "description" []
      "u1").1 (by decide),
   (create_question_toxicity_gate qEnv wStore "hello" "world" [] "u1").2
     (by decide)⟩

/-- C9.  The tag list stored on a created question is the user tags
combined with the AI-suggested tags, deduplicated and capped: it equals
`(user ++ ai).dedup.take 10`, has no duplicate entries, only contains tags
from one of the two input lists, and has at most 10 elements. -/
theorem create_question_tags_bound (env : QuestionEnv) (s : Store)
    (title description : String) (tags : List String) (user_id : String)
    (q : QuestionDoc)
    (hok : (create_question env s title description tags user_id).2 =
      .ok q) :
    q.tags = ((tags ++ env.autoTag title description).dedup).take 10 ∧
    q.tags.Nodup ∧
    (∀ t ∈ q.tags, t ∈ tags ∨ t ∈ env.autoTag title description) ∧
    q.tags.length ≤ 10 := by
  unfold create_question at hok
  by_cases htox : (env.isToxic (title ++ " " ++ description)).1 = true
  · simp [htox] at hok
  · simp only [Bool.not_eq_true] at htox
    simp only [htox, Bool.false_eq_true, if_false] at hok
    have hq : q = ⟨env.newId, title, description,
        ((tags ++ env.autoTag title description).dedup).take 10,
        user_id, [], none⟩ := by
      cases hok
      rfl
    subst hq
    refine ⟨rfl, ?_, ?_, ?_⟩
    · exact (List.nodup_dedup _).sublist (List.take_sublist _ _)
    · intro t ht
      have : t ∈ (tags ++ env.autoTag title description).dedup :=
        (List.take_sublist _ _).mem ht
      exact List.mem_append.mp (List.mem_dedup.mp this)
    · exact List.length_take_le _ _

/-- Witness for C9 at a concrete request carrying a duplicated user tag. -/
theorem create_question_tags_bound_witness :
    (⟨"q9", "hello", "world",
        ((["t1", "t1"] ++ qEnv.autoTag "hello" "world").dedup).take 10,
        "u1", [], none⟩ : QuestionDoc).tags.Nodup ∧
    (⟨"q9", "hello", "world",
        ((["t1", "t1"] ++ qEnv.autoTag "hello" "world").dedup).take 10,
        "u1", [], none⟩ : QuestionDoc).tags.length ≤ 10 :=
  ⟨(create_question_tags_bound qEnv wStore "hello" "world" ["t1", "t1"] "u1"
      _ (by decide)).2.1,
   (create_question_tags_bound qEnv wStore "hello" "world" ["t1", "t1"] "u1"
      _ (by decide)).2.2.2⟩

theorem updateFirst_id (p : α → Bool) : ∀ l : List α,
    updateFirst p (fun a => a) l = l
  | [] => rfl
  | x :: xs => by
    by_cases hx : p x = true
    · rw [updateFirst, if_pos hx]
    · rw [updateFirst, if_neg hx, updateFirst_id p xs]

theorem updateFirst_eq_map {α β : Type} [DecidableEq β] (key : α → β)
    (i : β) (f : α → α) :
    ∀ l : List α, (l.map key).Nodup →
      updateFirst (fun x => key x == i) f l =
        l.map (fun x => if key x == i then f x else x)
  | [], _ => rfl
  | x :: xs, h => by
    simp only [List.map_cons, List.nodup_cons, List.mem_map] at h
    by_cases hx : key x = i
    · rw [updateFirst, if_pos (by simp [hx]), List.map_cons,
        if_pos (by simp [hx])]
      have : ∀ y ∈ xs, ¬(key y == i) = true := by
        intro y hy hc
        exact h.1 ⟨y, hy, by rw [eq_of_beq hc, hx]⟩
      rw [List.map_congr_left (fun y hy => if_neg (this y hy)), List.map_id']
    · rw [updateFirst, if_neg (by simp [hx]), List.map_cons,
        if_neg (by simp [hx]), updateFirst_eq_map key i f xs h.2]

/-- `vote_answer` (routes/answer.py, lines 317-366): 404 when the answer
id is unknown, 400 when voting on one's own answer, otherwise `$inc` the
vote count by `+1` for `"upvote"`, by `-1` for `"downvote"`, and leave it
unchanged for `"remove"` (and any other action string); the response
carries the re-read vote count.  The two `update_one` branches and the
no-update branch are modelled by a single `updateFirst` whose update
function is chosen from the action (the identity for the no-update
branch); re-reading a vanished document (`updated_answer["votes"]` of
`None`, unreachable here) is modelled as a 500. -/
def vote_answer (s : Store) (answer_id action current_user_id : String) :
    Store × Except Nat Int :=
  match s.answers.find? (fun a => a.id == answer_id) with
  | none => (s, .error 404)
  | some answer =>
    if answer.user_id == current_user_id then (s, .error 400)
    else
      let upd : AnswerDoc → AnswerDoc :=
        if action == "upvote" then (fun a => { a with votes := a.votes + 1 })
        else if action == "downvote" then
          (fun a => { a with votes := a.votes - 1 })
        else (fun a => a)
      let answers2 := updateFirst (fun a => a.id == answer_id) upd s.answers
      match answers2.find? (fun a => a.id == answer_id) with
      | some updated_answer =>
        ({ s with answers := answers2 }, .ok updated_answer.votes)
      | none => ({ s with answers := answers2 }, .error 500)

/-- C10.  Vote semantics on an existing answer: the author's own vote is
rejected with 400 and the store is unchanged; otherwise `"upvote"` adds
exactly 1 to that answer's votes, `"downvote"` subtracts exactly 1,
`"remove"` changes nothing, and no other field of any answer (nor any
other collection) is modified. -/
theorem vote_answer_semantics (s : Store)
    (answer_id action current_user_id : String) (ans : AnswerDoc)
    (hfind : s.answers.find? (fun a => a.id == answer_id) = some ans) :
    (ans.user_id = current_user_id →
      vote_answer s answer_id action current_user_id = (s, .error 400)) ∧
    (ans.user_id ≠ current_user_id →
      (s.answers.map (fun x : AnswerDoc => x.id)).Nodup →
      (action = "upvote" →
        vote_answer s answer_id action current_user_id =
          ({ s with answers := s.answers.map (fun a =>
              if a.id == answer_id then { a with votes := a.votes + 1 }
              else a) },
           .ok (ans.votes + 1))) ∧
      (action = "downvote" →
        vote_answer s answer_id action current_user_id =
          ({ s with answers := s.answers.map (fun a =>
              if a.id == answer_id then { a with votes := a.votes - 1 }
              else a) },
           .ok (ans.votes - 1))) ∧
      (action = "remove" →
        vote_answer s answer_id action current_user_id =
          (s, .ok ans.votes))) := by
  constructor
  · intro h
    unfold vote_answer
    rw [hfind]
    dsimp only
    rw [if_pos (by simp [h])]
  · intro h hids
    have hbeq : (ans.user_id == current_user_id) = false := by
      simp [h]
    refine ⟨?_, ?_, ?_⟩
    · rintro rfl
      unfold vote_answer
      rw [hfind]
      dsimp only
      rw [if_neg (by simp [h])]
      rw [if_pos (by decide : (("upvote" : String) == "upvote") = true)]
      rw [find?_updateFirst (fun a : AnswerDoc => a.id == answer_id)
        (fun a => { a with votes := a.votes + 1 }) (fun x hx => hx), hfind]
      rw [updateFirst_eq_map (fun x : AnswerDoc => x.id) answer_id _ _ hids]
      rfl
    · rintro rfl
      unfold vote_answer
      rw [hfind]
      dsimp only
      rw [if_neg (by simp [h])]
      rw [if_neg (by decide),
        if_pos (by decide : (("downvote" : String) == "downvote") = true)]
      rw [find?_updateFirst (fun a : AnswerDoc => a.id == answer_id)
        (fun a => { a with votes := a.votes - 1 }) (fun x hx => hx), hfind]
      rw [updateFirst_eq_map (fun x : AnswerDoc => x.id) answer_id _ _ hids]
      rfl
    · rintro rfl
      unfold vote_answer
      rw [hfind]
      dsimp only
      rw [if_neg (by simp [h])]
      rw [if_neg (by decide), if_neg (by decide), updateFirst_id, hfind]

/-- Witness for C10: bob cannot vote on his own answer; alice's upvote
adds one; alice's remove leaves the store untouched. -/
theorem vote_answer_semantics_witness :
    (vote_answer wStore "a1" "upvote" "u2" = (wStore, .error 400)) ∧
    (vote_answer wStore "a1" "upvote" "u1" =
      ({ wStore with answers := wStore.answers.map (fun a =>
          if a.id == "a1" then { a with votes := a.votes + 1 } else a) },
       .ok 1)) ∧
    (vote_answer wStore "a1" "remove" "u1" = (wStore, .ok 0)) :=
  ⟨(vote_answer_semantics wStore "a1" "upvote" "u2"
      ⟨"a1", "q1", "u2", "c", 0, false⟩ (by decide)).1 rfl,
   ((vote_answer_semantics wStore "a1" "upvote" "u1"
      ⟨"a1", "q1", "u2", "c", 0, false⟩ (by decide)).2 (by decide)
      (by decide)).1 rfl,
   ((vote_answer_semantics wStore "a1" "remove" "u1"
      ⟨"a1", "q1", "u2", "c", 0, false⟩ (by decide)).2 (by decide)
      (by decide)).2.2 rfl⟩

/-- `accept_answer` (routes/answer.py, lines 368-428): only the question
author may accept; `update_many` clears `is_accepted` on every answer of
the question, `update_one` sets it on the accepted one, the question's
`accepted_answer` field is set, and the answer author is notified. -/
def accept_answer (s : Store) (answer_id current_user_id : String) :
    Store × Except Nat Unit :=
  match s.answers.find? (fun a => a.id == answer_id) with
  | none => (s, .error 404)
  | some answer =>
    match s.questions.find? (fun q => q.id == answer.question_id) with
    | none => (s, .error 404)
    | some question =>
      if question.user_id ≠ current_user_id then (s, .error 403)
      else
        let answers1 := s.answers.map (fun a =>
          if a.question_id == answer.question_id then
            { a with is_accepted := false }
          else a)
        let answers2 := updateFirst (fun a => a.id == answer_id)
          (fun a => { a with is_accepted := true }) answers1
        let questions1 := updateFirst (fun q => q.id == answer.question_id)
          (fun q => { q with accepted_answer := some answer_id }) s.questions
        let s1 := { s with answers := answers2, questions := questions1 }
        (notify_accepted_answer s1 answer_id current_user_id, .ok ())

/-- `delete_answer` (routes/answer.py, lines 430-474): only the author or
an admin may delete; the answer id is `$pull`ed from the question's
`answers` array, the question's `accepted_answer` is reset to `None` when
the deleted answer was the accepted one, and the document is deleted. -/
def delete_answer (s : Store)
    (answer_id current_user_id current_user_role : String) :
    Store × Except Nat Unit :=
  match s.answers.find? (fun a => a.id == answer_id) with
  | none => (s, .error 404)
  | some answer =>
    if answer.user_id ≠ current_user_id ∧ current_user_role ≠ "admin" then
      (s, .error 403)
    else
      let questions1 := updateFirst (fun q => q.id == answer.question_id)
        (fun q =>
          { q with answers := q.answers.filter (fun x => !(x == answer_id)) })
        s.questions
      let questions2 :=
        if answer.is_accepted then
          updateFirst (fun q => q.id == answer.question_id)
            (fun q => { q with accepted_answer := none }) questions1
        else questions1
      let answers2 := s.answers.eraseP (fun a => a.id == answer_id)
      ({ s with questions := questions2, answers := answers2 }, .ok ())

theorem map_key_updateFirst {α β : Type} (key : α → β) (p : α → Bool)
    (f : α → α) (hf : ∀ x, key (f x) = key x) :
    ∀ l : List α, (updateFirst p f l).map key = l.map key
  | [] => rfl
  | x :: xs => by
    by_cases hx : p x = true
    · rw [updateFirst, if_pos hx, List.map_cons, List.map_cons, hf]
    · rw [updateFirst, if_neg hx, List.map_cons, List.map_cons,
        map_key_updateFirst key p f hf xs]

theorem filter_key_singleton {α β : Type} [DecidableEq β] (key : α → β)
    {l : List α} {x : α} {i : β} (hnd : (l.map key).Nodup) (hm : x ∈ l)
    (hkey : key x = i) : l.filter (fun y => key y == i) = [x] := by
  subst hkey
  induction l with
  | nil => cases hm
  | cons a t ih =>
    simp only [List.map_cons, List.nodup_cons, List.mem_map] at hnd
    by_cases ha : key a = key x
    · have hax : a = x := by
        rcases List.mem_cons.mp hm with rfl | hm'
        · rfl
        · exact absurd ⟨x, hm', ha.symm⟩ hnd.1
      subst hax
      rw [List.filter_cons_of_pos (by simp), List.filter_eq_nil_iff.mpr]
      intro y hy hc
      exact hnd.1 ⟨y, hy, eq_of_beq hc⟩
    · have hm' : x ∈ t := by
        rcases List.mem_cons.mp hm with rfl | hm'
        · exact absurd rfl ha
        · exact hm'
      rw [List.filter_cons_of_neg (by simpa using ha)]
      exact ih hnd.2 hm'

theorem not_mem_eraseP_key {α β : Type} [DecidableEq β] (key : α → β)
    {l : List α} {x : α} {i : β} (hnd : (l.map key).Nodup) (hm : x ∈ l)
    (hkey : key x = i) : x ∉ l.eraseP (fun y => key y == i) := by
  subst hkey
  induction l with
  | nil => simp
  | cons a t ih =>
    simp only [List.map_cons, List.nodup_cons, List.mem_map] at hnd
    by_cases ha : key a = key x
    · rw [List.eraseP_cons_of_pos (by simpa using ha)]
      intro hx
      exact hnd.1 ⟨x, hx, ha.symm⟩
    · rw [List.eraseP_cons_of_neg (by simpa using ha)]
      intro hx
      rcases List.mem_cons.mp hx with rfl | hx'
      · exact ha rfl
      · have hm' : x ∈ t := by
          rcases List.mem_cons.mp hm with rfl | hm'
          · exact absurd rfl ha
          · exact hm'
        exact ih hnd.2 hm' hx'

/-- The pointwise effect of `accept_answer`'s `update_many` followed by
its `update_one` on the answers collection (valid when answer ids are
unique): the accepted answer gets `is_accepted := true`, its siblings get
`is_accepted := false`, everything else is untouched. -/
def acceptUpd (answer_id qid : String) (a : AnswerDoc) : AnswerDoc :=
  if a.id == answer_id then { a with is_accepted := true }
  else if a.question_id == qid then { a with is_accepted := false }
  else a

theorem accept_answers_map (s : Store) {answer_id : String} {ans : AnswerDoc}
    (hna : (s.answers.map (fun x : AnswerDoc => x.id)).Nodup)
    (hfind : s.answers.find? (fun a => a.id == answer_id) = some ans) :
    updateFirst (fun a => a.id == answer_id)
        (fun a => { a with is_accepted := true })
        (s.answers.map (fun a =>
          if a.question_id == ans.question_id then
            { a with is_accepted := false }
          else a)) =
      s.answers.map (acceptUpd answer_id ans.question_id) := by
  have hmem : ans ∈ s.answers := List.mem_of_find?_eq_some hfind
  have hansid : ans.id = answer_id := by
    have h := List.find?_some hfind
    exact eq_of_beq h
  have hkeys : ((s.answers.map (fun a =>
      if a.question_id == ans.question_id then { a with is_accepted := false }
      else a)).map (fun x : AnswerDoc => x.id)).Nodup := by
    rw [List.map_map]
    have heq : ∀ x ∈ s.answers,
        ((fun x : AnswerDoc => x.id) ∘ (fun a =>
          if a.question_id == ans.question_id then
            { a with is_accepted := false }
          else a)) x = x.id := by
      intro x _
      by_cases hx : x.question_id = ans.question_id <;> simp [hx]
    rw [List.map_congr_left heq]
    exact hna
  rw [updateFirst_eq_map (fun x : AnswerDoc => x.id) answer_id _ _ hkeys,
    List.map_map]
  apply List.map_congr_left
  intro x hx
  by_cases hxid : x.id = answer_id
  · have hxa : x = ans := key_inj (fun a : AnswerDoc => a.id) hna hx hmem
      (by show x.id = ans.id; rw [hxid, hansid])
    subst hxa
    simp [acceptUpd, Function.comp, hxid]
  · by_cases hxq : x.question_id = ans.question_id <;>
      simp [acceptUpd, Function.comp, hxid, hxq]

theorem delete_questions_map (s : Store) (qid answer_id : String)
    (hnq : (s.questions.map (fun x : QuestionDoc => x.id)).Nodup) :
    updateFirst (fun q => q.id == qid)
        (fun q => { q with accepted_answer := none })
        (updateFirst (fun q => q.id == qid)
          (fun q =>
            { q with answers := q.answers.filter (fun x => !(x == answer_id)) })
          s.questions) =
      s.questions.map (fun q =>
        if q.id == qid then
          { q with
            answers := q.answers.filter (fun x => !(x == answer_id)),
            accepted_answer := none }
        else q) := by
  rw [updateFirst_eq_map (fun x : QuestionDoc => x.id) qid _ _ hnq]
  have hkeys : ((s.questions.map (fun q =>
      if q.id == qid then
        { q with answers := q.answers.filter (fun x => !(x == answer_id)) }
      else q)).map (fun x : QuestionDoc => x.id)).Nodup := by
    rw [List.map_map]
    have heq : ∀ x ∈ s.questions,
        ((fun x : QuestionDoc => x.id) ∘ (fun q =>
          if q.id == qid then
            { q with answers := q.answers.filter (fun x => !(x == answer_id)) }
          else q)) x = x.id := by
      intro x _
      by_cases hx : x.id = qid <;> simp [hx]
    rw [List.map_congr_left heq]
    exact hnq
  rw [updateFirst_eq_map (fun x : QuestionDoc => x.id) qid _ _ hkeys,
    List.map_map]
  apply List.map_congr_left
  intro x _
  by_cases hx : x.id = qid <;> simp [Function.comp, hx]

/-- The accepted answers of question `qid` in store `s`. -/
def acceptedFor (s : Store) (qid : String) : List AnswerDoc :=
  s.answers.filter (fun a => a.question_id == qid && a.is_accepted)

/-- The accepted-answer consistency invariant: every accepted answer of a
question is the one its `accepted_answer` field points to (with unique
answer ids this bounds the accepted answers of each question by one). -/
def StoreInv (s : Store) : Prop :=
  ∀ q ∈ s.questions, ∀ a ∈ s.answers,
    a.question_id = q.id → a.is_accepted = true → q.accepted_answer = some a.id

theorem accept_answer_state (s : Store) {answer_id : String}
    (current_user_id : String) {ans : AnswerDoc} {q : QuestionDoc}
    (hfind : s.answers.find? (fun a => a.id == answer_id) = some ans)
    (hq : s.questions.find? (fun x => x.id == ans.question_id) = some q)
    (hauth : q.user_id = current_user_id) :
    accept_answer s answer_id current_user_id =
      (notify_accepted_answer
        { s with
          answers := updateFirst (fun a => a.id == answer_id)
            (fun a => { a with is_accepted := true })
            (s.answers.map (fun a =>
              if a.question_id == ans.question_id then
                { a with is_accepted := false }
              else a)),
          questions := updateFirst (fun x => x.id == ans.question_id)
            (fun x => { x with accepted_answer := some answer_id })
            s.questions }
        answer_id current_user_id, .ok ()) := by
  unfold accept_answer
  rw [hfind]
  dsimp only
  rw [hq]
  dsimp only
  rw [if_neg (not_not_intro hauth)]

theorem delete_answer_state (s : Store) {answer_id : String}
    (current_user_id current_user_role : String) {ans : AnswerDoc}
    (hfind : s.answers.find? (fun a => a.id == answer_id) = some ans)
    (hperm : ¬(ans.user_id ≠ current_user_id ∧ current_user_role ≠ "admin")) :
    delete_answer s answer_id current_user_id current_user_role =
      ({ s with
         questions :=
           if ans.is_accepted then
             updateFirst (fun x => x.id == ans.question_id)
               (fun x => { x with accepted_answer := none })
               (updateFirst (fun x => x.id == ans.question_id)
                 (fun x =>
                   { x with answers :=
                       x.answers.filter (fun y => !(y == answer_id)) })
                 s.questions)
           else
             updateFirst (fun x => x.id == ans.question_id)
               (fun x =>
                 { x with answers :=
                     x.answers.filter (fun y => !(y == answer_id)) })
               s.questions,
         answers := s.answers.eraseP (fun a => a.id == answer_id) },
       .ok ()) := by
  unfold delete_answer
  rw [hfind]
  dsimp only
  rw [if_neg hperm]

/-- C8.  Accepted-answer uniqueness: after a successful `accept_answer`,
exactly one answer of the target question is accepted and the question's
`accepted_answer` field is its id; after `delete_answer` removes an
accepted answer the question's `accepted_answer` is reset to `None`; and
both operations preserve the consistency invariant `StoreInv` (each
question's accepted answers all coincide with its `accepted_answer`
field), so a question always has at most one accepted answer consistent
with that field.  Id-uniqueness of the `_id` keys is a database
guarantee. -/
theorem accepted_answer_unique :
    (∀ (s : Store) (answer_id current_user_id : String) (s' : Store)
        (ans : AnswerDoc),
      (s.answers.map (fun x : AnswerDoc => x.id)).Nodup →
      (s.questions.map (fun x : QuestionDoc => x.id)).Nodup →
      s.answers.find? (fun a => a.id == answer_id) = some ans →
      accept_answer s answer_id current_user_id = (s', .ok ()) →
      (acceptedFor s' ans.question_id).map (fun a => a.id) = [answer_id] ∧
      ∀ q ∈ s'.questions, q.id = ans.question_id →
        q.accepted_answer = some answer_id) ∧
    (∀ (s : Store) (answer_id current_user_id current_user_role : String)
        (s' : Store) (ans : AnswerDoc),
      (s.questions.map (fun x : QuestionDoc => x.id)).Nodup →
      s.answers.find? (fun a => a.id == answer_id) = some ans →
      ans.is_accepted = true →
      delete_answer s answer_id current_user_id current_user_role =
        (s', .ok ()) →
      ∀ q ∈ s'.questions, q.id = ans.question_id →
        q.accepted_answer = none) ∧
    (∀ (s : Store) (answer_id current_user_id : String),
      (s.answers.map (fun x : AnswerDoc => x.id)).Nodup →
      (s.questions.map (fun x : QuestionDoc => x.id)).Nodup →
      StoreInv s →
      StoreInv (accept_answer s answer_id current_user_id).1) ∧
    (∀ (s : Store) (answer_id current_user_id current_user_role : String),
      (s.answers.map (fun x : AnswerDoc => x.id)).Nodup →
      (s.questions.map (fun x : QuestionDoc => x.id)).Nodup →
      StoreInv s →
      StoreInv
        (delete_answer s answer_id current_user_id current_user_role).1) := by
  refine ⟨?_, ?_, ?_, ?_⟩
  · -- accept: exactly one accepted answer, field consistent
    intro s answer_id current_user_id s' ans hna hnq hfind heq
    have hansid : ans.id = answer_id := by
      have h := List.find?_some hfind
      exact eq_of_beq h
    have hmem : ans ∈ s.answers := List.mem_of_find?_eq_some hfind
    cases hqf : s.questions.find? (fun x => x.id == ans.question_id) with
    | none =>
      exfalso
      unfold accept_answer at heq
      rw [hfind] at heq
      dsimp only at heq
      rw [hqf] at heq
      simp at heq
    | some q =>
      by_cases hauth : q.user_id = current_user_id
      · have hstate := accept_answer_state s current_user_id hfind hqf hauth
        have hs' : (accept_answer s answer_id current_user_id).1 = s' := by
          rw [heq]
        have hA : s'.answers =
            s.answers.map (acceptUpd answer_id ans.question_id) := by
          rw [← hs', hstate]
          dsimp only
          rw [notify_accepted_answer_answers]
          exact accept_answers_map s hna hfind
        have hQ : s'.questions =
            updateFirst (fun x => x.id == ans.question_id)
              (fun x => { x with accepted_answer := some answer_id })
              s.questions := by
          rw [← hs', hstate]
          dsimp only
          rw [notify_accepted_answer_questions]
        constructor
        · unfold acceptedFor
          rw [hA, List.filter_map]
          have hpt : ∀ x ∈ s.answers,
              ((fun a : AnswerDoc => a.question_id == ans.question_id &&
                  a.is_accepted) ∘ acceptUpd answer_id ans.question_id) x =
                (x.id == answer_id) := by
            intro x hx
            by_cases hxid : x.id = answer_id
            · have hxa : x = ans := key_inj (fun a : AnswerDoc => a.id) hna
                hx hmem (by show x.id = ans.id; rw [hxid, hansid])
              have hxq : x.question_id = ans.question_id := by rw [hxa]
              simp [acceptUpd, Function.comp, beq_iff_eq.mpr hxid,
                beq_iff_eq.mpr hxq]
            · have hb1 : (x.id == answer_id) = false :=
                beq_eq_false_iff_ne.mpr hxid
              by_cases hxq : x.question_id = ans.question_id
              · simp [acceptUpd, Function.comp, hb1, beq_iff_eq.mpr hxq]
              · simp [acceptUpd, Function.comp, hb1,
                  beq_eq_false_iff_ne.mpr hxq]
          rw [List.filter_congr hpt,
            filter_key_singleton (fun a : AnswerDoc => a.id) hna hmem hansid]
          simp [acceptUpd, beq_iff_eq.mpr hansid, hansid]
        · intro q' hq' hq'id
          rw [hQ, updateFirst_eq_map (fun x : QuestionDoc => x.id)
            ans.question_id _ _ hnq] at hq'
          obtain ⟨q0, hq0, rfl⟩ := List.mem_map.mp hq'
          by_cases h0 : q0.id = ans.question_id
          · simp [beq_iff_eq.mpr h0]
          · exfalso
            rw [if_neg (by simp [beq_eq_false_iff_ne.mpr h0])] at hq'id
            exact h0 hq'id
      · exfalso
        unfold accept_answer at heq
        rw [hfind] at heq
        dsimp only at heq
        rw [hqf] at heq
        dsimp only at heq
        rw [if_pos hauth] at heq
        simp at heq
  · -- delete of an accepted answer resets the pointer
    intro s answer_id current_user_id current_user_role s' ans hnq hfind hacc
      heq
    by_cases hperm : ans.user_id ≠ current_user_id ∧
        current_user_role ≠ "admin"
    · exfalso
      unfold delete_answer at heq
      rw [hfind] at heq
      dsimp only at heq
      rw [if_pos hperm] at heq
      simp at heq
    · have hstate := delete_answer_state s current_user_id current_user_role
        hfind hperm
      have hs' : (delete_answer s answer_id current_user_id
          current_user_role).1 = s' := by
        rw [heq]
      have hQ : s'.questions =
          s.questions.map (fun q =>
            if q.id == ans.question_id then
              { q with
                answers := q.answers.filter (fun y => !(y == answer_id)),
                accepted_answer := none }
            else q) := by
        rw [← hs', hstate]
        dsimp only
        rw [if_pos hacc]
        exact delete_questions_map s ans.question_id answer_id hnq
      intro q' hq' hq'id
      rw [hQ] at hq'
      obtain ⟨q0, hq0, rfl⟩ := List.mem_map.mp hq'
      by_cases h0 : q0.id = ans.question_id
      · simp [beq_iff_eq.mpr h0]
      · exfalso
        rw [if_neg (by simp [beq_eq_false_iff_ne.mpr h0])] at hq'id
        exact h0 hq'id
  · -- accept preserves the invariant
    intro s answer_id current_user_id hna hnq hinv
    cases hfind : s.answers.find? (fun a => a.id == answer_id) with
    | none =>
      have h : (accept_answer s answer_id current_user_id).1 = s := by
        unfold accept_answer
        rw [hfind]
      rw [h]
      exact hinv
    | some ans =>
      have hansid : ans.id = answer_id := by
        have h := List.find?_some hfind
        exact eq_of_beq h
      have hmem : ans ∈ s.answers := List.mem_of_find?_eq_some hfind
      cases hqf : s.questions.find? (fun x => x.id == ans.question_id) with
      | none =>
        have h : (accept_answer s answer_id current_user_id).1 = s := by
          unfold accept_answer
          rw [hfind]
          dsimp only
          rw [hqf]
        rw [h]
        exact hinv
      | some q =>
        by_cases hauth : q.user_id = current_user_id
        · have hstate := accept_answer_state s current_user_id hfind hqf hauth
          have hA : (accept_answer s answer_id current_user_id).1.answers =
              s.answers.map (acceptUpd answer_id ans.question_id) := by
            rw [hstate]
            dsimp only
            rw [notify_accepted_answer_answers]
            exact accept_answers_map s hna hfind
          have hQ : (accept_answer s answer_id current_user_id).1.questions =
              updateFirst (fun x => x.id == ans.question_id)
                (fun x => { x with accepted_answer := some answer_id })
                s.questions := by
            rw [hstate]
            dsimp only
            rw [notify_accepted_answer_questions]
          intro q' hq' a' ha' hqa hacc'
          rw [hQ, updateFirst_eq_map (fun x : QuestionDoc => x.id)
            ans.question_id _ _ hnq] at hq'
          rw [hA] at ha'
          obtain ⟨q0, hq0, rfl⟩ := List.mem_map.mp hq'
          obtain ⟨a0, ha0, rfl⟩ := List.mem_map.mp ha'
          by_cases haid : a0.id = answer_id
          · have ha0ans : a0 = ans := key_inj (fun a : AnswerDoc => a.id) hna
              ha0 hmem (by show a0.id = ans.id; rw [haid, hansid])
            by_cases h0 : q0.id = ans.question_id
            · simp [acceptUpd, beq_iff_eq.mpr haid, beq_iff_eq.mpr h0, haid]
            · exfalso
              simp [acceptUpd, beq_iff_eq.mpr haid,
                beq_eq_false_iff_ne.mpr h0] at hqa
              exact h0 (hqa.symm.trans
                (congrArg (fun z : AnswerDoc => z.question_id) ha0ans))
          · by_cases haq : a0.question_id = ans.question_id
            · exfalso
              simp [acceptUpd, beq_eq_false_iff_ne.mpr haid,
                beq_iff_eq.mpr haq] at hacc'
            · have hupd : acceptUpd answer_id ans.question_id a0 = a0 := by
                simp [acceptUpd, beq_eq_false_iff_ne.mpr haid,
                  beq_eq_false_iff_ne.mpr haq]
              rw [hupd] at hqa hacc' ⊢
              by_cases h0 : q0.id = ans.question_id
              · exfalso
                rw [if_pos (beq_iff_eq.mpr h0)] at hqa
                exact haq (hqa.trans h0)
              · rw [if_neg (by simp [beq_eq_false_iff_ne.mpr h0])] at hqa ⊢
                exact hinv q0 hq0 a0 ha0 hqa hacc'
        · have h : (accept_answer s answer_id current_user_id).1 = s := by
            unfold accept_answer
            rw [hfind]
            dsimp only
            rw [hqf]
            dsimp only
            rw [if_pos hauth]
          rw [h]
          exact hinv
  · -- delete preserves the invariant
    intro s answer_id current_user_id current_user_role hna hnq hinv
    cases hfind : s.answers.find? (fun a => a.id == answer_id) with
    | none =>
      have h : (delete_answer s answer_id current_user_id
          current_user_role).1 = s := by
        unfold delete_answer
        rw [hfind]
      rw [h]
      exact hinv
    | some ans =>
      have hansid : ans.id = answer_id := by
        have h := List.find?_some hfind
        exact eq_of_beq h
      have hmem : ans ∈ s.answers := List.mem_of_find?_eq_some hfind
      by_cases hperm : ans.user_id ≠ current_user_id ∧
          current_user_role ≠ "admin"
      · have h : (delete_answer s answer_id current_user_id
            current_user_role).1 = s := by
          unfold delete_answer
          rw [hfind]
          dsimp only
          rw [if_pos hperm]
        rw [h]
        exact hinv
      · have hstate := delete_answer_state s current_user_id
          current_user_role hfind hperm
        have hA : (delete_answer s answer_id current_user_id
            current_user_role).1.answers =
            s.answers.eraseP (fun a => a.id == answer_id) := by
          rw [hstate]
        intro q' hq' a' ha' hqa hacc'
        rw [hA] at ha'
        have ha's : a' ∈ s.answers := (List.eraseP_sublist _).subset ha'
        by_cases hacc : ans.is_accepted = true
        · have hQ : (delete_answer s answer_id current_user_id
              current_user_role).1.questions =
              s.questions.map (fun q =>
                if q.id == ans.question_id then
                  { q with
                    answers := q.answers.filter (fun y => !(y == answer_id)),
                    accepted_answer := none }
                else q) := by
            rw [hstate]
            dsimp only
            rw [if_pos hacc]
            exact delete_questions_map s ans.question_id answer_id hnq
          rw [hQ] at hq'
          obtain ⟨q0, hq0, rfl⟩ := List.mem_map.mp hq'
          by_cases h0 : q0.id = ans.question_id
          · exfalso
            rw [if_pos (beq_iff_eq.mpr h0)] at hqa
            have haq : a'.question_id = q0.id := hqa
            have h1 : q0.accepted_answer = some a'.id :=
              hinv q0 hq0 a' ha's haq hacc'
            have h2 : q0.accepted_answer = some ans.id :=
              hinv q0 hq0 ans hmem h0.symm hacc
            have hid : a'.id = ans.id :=
              Option.some_inj.mp (h1.symm.trans h2)
            have ha'ans : a' = ans :=
              key_inj (fun a : AnswerDoc => a.id) hna ha's hmem hid
            rw [ha'ans] at ha'
            exact not_mem_eraseP_key (fun a : AnswerDoc => a.id) hna hmem
              hansid ha'
          · rw [if_neg (by simp [beq_eq_false_iff_ne.mpr h0])] at hqa ⊢
            exact hinv q0 hq0 a' ha's hqa hacc'
        · have hQ : (delete_answer s answer_id current_user_id
              current_user_role).1.questions =
              updateFirst (fun x => x.id == ans.question_id)
                (fun x =>
                  { x with answers :=
                      x.answers.filter (fun y => !(y == answer_id)) })
                s.questions := by
            rw [hstate]
            dsimp only
            rw [if_neg hacc]
          rw [hQ, updateFirst_eq_map (fun x : QuestionDoc => x.id)
            ans.question_id _ _ hnq] at hq'
          obtain ⟨q0, hq0, rfl⟩ := List.mem_map.mp hq'
          by_cases h0 : q0.id = ans.question_id
          · rw [if_pos (beq_iff_eq.mpr h0)] at hqa ⊢
            exact hinv q0 hq0 a' ha's hqa hacc'
          · rw [if_neg (by simp [beq_eq_false_iff_ne.mpr h0])] at hqa ⊢
            exact hinv q0 hq0 a' ha's hqa hacc'

/-- The store after alice accepts bob's answer `a1` on `wStore`. -/
def wAccepted : Store :=
  { users := [⟨"u1", "alice", "user"⟩, ⟨"u2", "bob", "user"⟩],
    questions := [⟨"q1", "T", "D", [], "u1", [], some "a1"⟩],
    answers := [⟨"a1", "q1", "u2", "c", 0, true⟩],
    notifications := [⟨"u2", "u1", "accepted_answer",
      "alice accepted your answer to: T", some "q1", some "a1", false⟩] }

/-- The store after bob then deletes his accepted answer from
`wAccepted`. -/
def wDeleted : Store :=
  { users := [⟨"u1", "alice", "user"⟩, ⟨"u2", "bob", "user"⟩],
    questions := [⟨"q1", "T", "D", [], "u1", [], none⟩],
    answers := [],
    notifications := [⟨"u2", "u1", "accepted_answer",
      "alice accepted your answer to: T", some "q1", some "a1", false⟩] }

/-- Witness for C8: accepting `a1` leaves it as the unique accepted answer
of `q1` with the pointer set; deleting it resets the pointer; and the
consistency invariant holds in the store accept produced. -/
theorem accepted_answer_unique_witness :
    (acceptedFor wAccepted "q1").map (fun a => a.id) = ["a1"] ∧
    (⟨"q1", "T", "D", [], "u1", [], none⟩ : QuestionDoc).accepted_answer =
      none ∧
    StoreInv (accept_answer wStore "a1" "u1").1 :=
  ⟨(accepted_answer_unique.1 wStore "a1" "u1" wAccepted
      ⟨"a1", "q1", "u2", "c", 0, false⟩ (by decide) (by decide) (by decide)
      (by decide)).1,
   accepted_answer_unique.2.1 wAccepted "a1" "u2" "user" wDeleted
     ⟨"a1", "q1", "u2", "c", 0, true⟩ (by decide) (by decide) (by decide)
     (by decide) ⟨"q1", "T", "D", [], "u1", [], none⟩ (by decide) (by decide),
   accepted_answer_unique.2.2.1 wStore "a1" "u1" (by decide) (by decide)
     (by unfold StoreInv; decide)⟩

/-- The descending-score order used by `results.sort(key=lambda x: x[1],
reverse=True)` in krishm/smart_search.py. -/
def scoreGe {Q : Type} (a b : Q × Int) : Prop := b.2 ≤ a.2

instance {Q : Type} : DecidableRel (@scoreGe Q) :=
  fun a b => inferInstanceAs (Decidable (b.2 ≤ a.2))

instance {Q : Type} : IsTotal (Q × Int) scoreGe :=
  ⟨fun a b => (le_total b.2 a.2).symm.symm⟩

instance {Q : Type} : IsTrans (Q × Int) scoreGe :=
  ⟨fun _ _ _ hab hbc => le_trans hbc hab⟩

/-- `smart_search` (krishm/smart_search.py, lines 137-147): score every
question by the cosine similarity of the query embedding to the question
embedding, sort descending by score (Python's stable sort; the stable
`insertionSort`), and return the first `top_k` pairs.  The sentence
embedding and `util.cos_sim` are an external model, abstracted as the
similarity function `sim`; the float score is abstracted to `Int`. -/
def smart_search {Q : Type} (sim : String → Q → Int) (query : String)
    (questions : List Q) (top_k : Nat) : List (Q × Int) :=
  ((questions.map (fun q => (q, sim query q))).insertionSort scoreGe).take
    top_k

/-- C7.  `smart_search` returns ranked top-k results: the result has
`min top_k |questions|` pairs, is sorted by non-increasing score, each
pair carries the similarity of the query to its question, and the returned
pairs are the highest-scoring ones — the rest of the scored list completes
it to a permutation and scores at most every returned pair. -/
theorem smart_search_ranked {Q : Type} (sim : String → Q → Int)
    (query : String) (questions : List Q) (top_k : Nat) :
    (smart_search sim query questions top_k).length =
        min top_k questions.length ∧
    (smart_search sim query questions top_k).Sorted scoreGe ∧
    (∀ p ∈ smart_search sim query questions top_k, p.2 = sim query p.1) ∧
    ∃ rest, ((smart_search sim query questions top_k) ++ rest).Perm
        (questions.map (fun q => (q, sim query q))) ∧
      ∀ p ∈ smart_search sim query questions top_k, ∀ r ∈ rest,
        r.2 ≤ p.2 := by
  have hperm : (List.insertionSort scoreGe
        (questions.map (fun q => (q, sim query q)))).Perm
      (questions.map (fun q => (q, sim query q))) :=
    List.perm_insertionSort scoreGe _
  have hsorted : (List.insertionSort scoreGe
      (questions.map (fun q => (q, sim query q)))).Sorted scoreGe :=
    List.sorted_insertionSort scoreGe _
  refine ⟨?_, ?_, ?_, ?_⟩
  · rw [smart_search, List.length_take, hperm.length_eq,
      List.length_map]
  · exact hsorted.sublist (List.take_sublist _ _)
  · intro p hp
    have hp' : p ∈ questions.map (fun q => (q, sim query q)) :=
      hperm.mem_iff.mp ((List.take_sublist _ _).mem hp)
    obtain ⟨q, _, rfl⟩ := List.mem_map.mp hp'
    rfl
  · refine ⟨(List.insertionSort scoreGe
        (questions.map (fun q => (q, sim query q)))).drop top_k, ?_, ?_⟩
    · rw [smart_search, List.take_append_drop]
      exact hperm
    · intro p hp r hr
      have := List.pairwise_append.mp
        ((List.take_append_drop top_k (List.insertionSort scoreGe
          (questions.map (fun q => (q, sim query q))))).symm ▸ hsorted)
      exact this.2.2 p hp r hr

/-- A concrete search instance for the witness: three "questions" scored
by an explicit similarity function. -/
def wSim (query : String) (q : Nat) : Int :=
  if query == "q" then (if q == 2 then 7 else if q == 3 then 9 else 4)
  else 0

/-- Witness for C7: on questions `[1, 2, 3]` with scores `4, 7, 9` and
`top_k = 2`, the search returns the two top-scoring pairs in descending
order, and the membership hypothesis of the score conjunct is discharged
at the top result `(3, 9)`. -/
theorem smart_search_ranked_witness :
    (smart_search wSim "q" [1, 2, 3] 2).length = min 2 3 ∧
    ((3, 9) : Nat × Int).2 = wSim "q" 3 :=
  ⟨(smart_search_ranked wSim "q" [1, 2, 3] 2).1,
   (smart_search_ranked wSim "q" [1, 2, 3] 2).2.2.1 (3, 9) (by decide)⟩

/-- Python's `str.split()`: the maximal whitespace-free runs, with the
current run accumulated in reverse in `acc`. -/
def splitWsAux : List Char → List Char → List (List Char)
  | [], acc => if acc.isEmpty then [] else [acc.reverse]
  | c :: rest, acc =>
    if c.isWhitespace then
      if acc.isEmpty then splitWsAux rest []
      else acc.reverse :: splitWsAux rest []
    else splitWsAux rest (c :: acc)

def splitWs (l : List Char) : List (List Char) := splitWsAux l []

/-- Python's `str.strip()`: drop leading and trailing whitespace. -/
def stripL (l : List Char) : List Char :=
  ((l.dropWhile Char.isWhitespace).reverse.dropWhile Char.isWhitespace).reverse

/-- Position of the closing `>` of a non-greedy `<.*?>` match: the first
`>` after the `<`, provided no newline (which `.` does not match) comes
first. -/
def findGt : List Char → Option Nat
  | [] => none
  | c :: rest =>
    if c == '>' then some 0
    else if c == '\n' then none
    else (findGt rest).map (· + 1)

/-- `re.sub(r"<.*?>", "", text)`: remove every non-overlapping non-greedy
tag match, scanning left to right.  Fuel is the text length; every step
consumes at least one character. -/
def removeTagsAux : Nat → List Char → List Char
  | 0, l => l
  | _ + 1, [] => []
  | fuel + 1, c :: rest =>
    if c == '<' then
      match findGt rest with
      | some k => removeTagsAux fuel (rest.drop (k + 1))
      | none => c :: removeTagsAux fuel rest
    else c :: removeTagsAux fuel rest

def removeTags (l : List Char) : List Char := removeTagsAux l.length l

/-- `re.sub(r"[^\w\s]", "", text)`: keep word and whitespace characters. -/
def removePunct (l : List Char) : List Char :=
  l.filter (fun c => isWordChar c || c.isWhitespace)

/-- `clean_text` (models/auto_tag.py, lines 23-26): strip tags, strip
punctuation, lower-case, strip surrounding whitespace. -/
def clean_text (l : List Char) : List Char :=
  stripL ((removePunct (removeTags l)).map Char.toLower)

/-- Python `str.isdigit` on the ASCII fragment. -/
def pyIsDigit (w : List Char) : Bool := !w.isEmpty && w.all Char.isDigit

/-- Python `str.isalpha` on the ASCII fragment. -/
def pyIsAlpha (w : List Char) : Bool := !w.isEmpty && w.all Char.isAlpha

/-- An ASCII uppercase letter; "lowercase" below means no character
satisfies this. -/
def isUpperA (c : Char) : Bool :=
  decide (65 ≤ c.toNat) && decide (c.toNat ≤ 90)

/-- Environment of the tag extractor: whether the AI dependencies
imported, the KeyBERT keyword list (the external model output for a given
cleaned text and `top_n`; scores scaled to `Int`), and the spaCy
part-of-speech acceptance check of `is_good_single_word`'s AI branch. -/
structure AutoTagEnv where
  aiAvailable : Bool
  rawKeywords : List Char → Nat → List (List Char × Int)
  posOk : List Char → Bool

/-- `is_good_single_word` (models/auto_tag.py, lines 29-45). -/
def is_good_single_word (env : AutoTagEnv) (w : List Char) : Bool :=
  if env.aiAvailable = false then
    decide ((splitWs w).length = 1) && !(pyIsDigit w) &&
      decide (2 < w.length) && pyIsAlpha w
  else
    decide ((splitWs w).length = 1) && env.posOk w && !(pyIsDigit w) &&
      decide (2 < w.length)

/-- The shared shape of the two collection loops of auto_tag.py (lines
54-64 and 83-93): walk the candidate list, map each candidate to a word
via `t`, skip seen or rejected words, append the rest, and break once
`top_k` tags were collected — the break is checked only after the append,
so the very first accepted word is kept even when `top_k = 0`. -/
def selLoop (t : α → List Char) (good : List Char → Bool) (top_k : Nat) :
    List α → List (List Char) → List (List Char) → List (List Char)
  | [], _, tags => tags
  | x :: xs, seen, tags =>
    let w := t x
    if w ∉ seen ∧ good w = true then
      let tags2 := tags ++ [w]
      if top_k ≤ tags2.length then tags2
      else selLoop t good top_k xs (w :: seen) tags2
    else selLoop t good top_k xs seen tags

/-- `extract_tags_fallback` (models/auto_tag.py, lines 48-66): split the
cleaned text and collect the words passing `is_good_single_word` plus the
extra `len(word) > 3` filter. -/
def extract_tags_fallback (env : AutoTagEnv) (title body : List Char)
    (top_k : Nat) : List (List Char) :=
  let text := clean_text (title ++ ' ' :: body)
  selLoop (fun w => w)
    (fun w => is_good_single_word env w && decide (3 < w.length)) top_k
    (splitWs text) [] []

/-- `extract_single_word_tags` (models/auto_tag.py, lines 69-95): the
fallback when the AI dependencies are missing, otherwise collect the
KeyBERT keywords (lower-cased and stripped) passing
`is_good_single_word`. -/
def extract_single_word_tags (env : AutoTagEnv) (title body : List Char)
    (top_k : Nat) : List (List Char) :=
  if env.aiAvailable = false then extract_tags_fallback env title body top_k
  else
    let text := clean_text (title ++ ' ' :: body)
    selLoop (fun p => stripL (p.1.map Char.toLower))
      (fun w => is_good_single_word env w) top_k
      (env.rawKeywords text (top_k + 20)) [] []

/-- `auto_tag_question` (models/auto_tag.py, lines 98-101): the tags the
entry point stores on the question dictionary. -/
def auto_tag_question (env : AutoTagEnv) (title body : List Char)
    (top_k : Nat) : List (List Char) :=
  extract_single_word_tags env title body top_k

theorem splitWsAux_no_ws :
    ∀ (l acc : List Char), (∀ c ∈ acc, c.isWhitespace = false) →
      ∀ w ∈ splitWsAux l acc, ∀ c ∈ w, c.isWhitespace = false
  | [], acc, hacc, w, hw => by
    by_cases h : acc.isEmpty
    · rw [splitWsAux, if_pos h] at hw
      cases hw
    · rw [splitWsAux, if_neg h] at hw
      rcases List.mem_singleton.mp hw with rfl
      intro c hc
      exact hacc c (List.mem_reverse.mp hc)
  | a :: l, acc, hacc, w, hw => by
    by_cases ha : a.isWhitespace
    · rw [splitWsAux, if_pos ha] at hw
      by_cases h : acc.isEmpty
      · rw [if_pos h] at hw
        exact splitWsAux_no_ws l [] (by simp) w hw
      · rw [if_neg h] at hw
        rcases List.mem_cons.mp hw with rfl | hw'
        · intro c hc
          exact hacc c (List.mem_reverse.mp hc)
        · exact splitWsAux_no_ws l [] (by simp) w hw'
    · rw [splitWsAux, if_neg ha] at hw
      refine splitWsAux_no_ws l (a :: acc) ?_ w hw
      intro c hc
      rcases List.mem_cons.mp hc with rfl | hc'
      · simpa using ha
      · exact hacc c hc'

theorem splitWsAux_subset {S : List Char} :
    ∀ (l acc : List Char), (∀ c ∈ l, c ∈ S) → (∀ c ∈ acc, c ∈ S) →
      ∀ w ∈ splitWsAux l acc, ∀ c ∈ w, c ∈ S
  | [], acc, _, hacc, w, hw => by
    by_cases h : acc.isEmpty
    · rw [splitWsAux, if_pos h] at hw
      cases hw
    · rw [splitWsAux, if_neg h] at hw
      rcases List.mem_singleton.mp hw with rfl
      intro c hc
      exact hacc c (List.mem_reverse.mp hc)
  | a :: l, acc, hl, hacc, w, hw => by
    have hl' : ∀ c ∈ l, c ∈ S := fun c hc => hl c (List.mem_cons_of_mem a hc)
    by_cases ha : a.isWhitespace
    · rw [splitWsAux, if_pos ha] at hw
      by_cases h : acc.isEmpty
      · rw [if_pos h] at hw
        exact splitWsAux_subset l [] hl' (by simp) w hw
      · rw [if_neg h] at hw
        rcases List.mem_cons.mp hw with rfl | hw'
        · intro c hc
          exact hacc c (List.mem_reverse.mp hc)
        · exact splitWsAux_subset l [] hl' (by simp) w hw'
    · rw [splitWsAux, if_neg ha] at hw
      refine splitWsAux_subset l (a :: acc) hl' ?_ w hw
      intro c hc
      rcases List.mem_cons.mp hc with rfl | hc'
      · exact hl c (List.mem_cons_self _ _)
      · exact hacc c hc'

theorem splitWsAux_ne_nil_acc :
    ∀ (l acc : List Char), acc ≠ [] → splitWsAux l acc ≠ []
  | [], acc, hacc => by
    rw [splitWsAux, if_neg (by simpa using hacc)]
    simp
  | a :: l, acc, hacc => by
    by_cases ha : a.isWhitespace
    · rw [splitWsAux, if_pos ha, if_neg (by simpa using hacc)]
      simp
    · rw [splitWsAux, if_neg ha]
      exact splitWsAux_ne_nil_acc l (a :: acc) (by simp)

theorem splitWsAux_ne_nil_of_nonws :
    ∀ (l acc : List Char), (∃ c ∈ l, c.isWhitespace = false) →
      splitWsAux l acc ≠ []
  | [], _, h => by
    obtain ⟨c, hc, -⟩ := h
    cases hc
  | a :: l, acc, h => by
    by_cases ha : a.isWhitespace
    · have h' : ∃ c ∈ l, c.isWhitespace = false := by
        obtain ⟨c, hc, hcw⟩ := h
        rcases List.mem_cons.mp hc with rfl | hc'
        · rw [ha] at hcw
          cases hcw
        · exact ⟨c, hc', hcw⟩
      rw [splitWsAux, if_pos ha]
      by_cases hacc : acc.isEmpty
      · rw [if_pos hacc]
        exact splitWsAux_ne_nil_of_nonws l [] h'
      · rw [if_neg hacc]
        simp
    · rw [splitWsAux, if_neg ha]
      exact splitWsAux_ne_nil_acc l (a :: acc) (by simp)

/-- Somewhere in the text a whitespace character is followed (not
necessarily immediately) by a non-whitespace one. -/
def hasWsThenNonWs : List Char → Bool
  | [] => false
  | c :: rest =>
    (c.isWhitespace && rest.any (fun d => !d.isWhitespace)) ||
      hasWsThenNonWs rest

theorem hasWsThenNonWs_any :
    ∀ l : List Char, hasWsThenNonWs l = true →
      l.any (fun d => !d.isWhitespace) = true
  | c :: rest, h => by
    rw [hasWsThenNonWs] at h
    rcases Bool.or_eq_true_iff.mp h with h' | h'
    · have := (Bool.and_eq_true_iff.mp h').2
      rw [List.any_cons, this, Bool.or_true]
    · rw [List.any_cons, hasWsThenNonWs_any rest h', Bool.or_true]

theorem splitWsAux_two_le :
    ∀ (l acc : List Char), hasWsThenNonWs l = true → acc ≠ [] →
      2 ≤ (splitWsAux l acc).length
  | [], _, h, _ => by cases h
  | a :: l, acc, h, hacc => by
    by_cases ha : a.isWhitespace
    · rw [splitWsAux, if_pos ha, if_neg (by simpa using hacc)]
      have hne : splitWsAux l [] ≠ [] := by
        apply splitWsAux_ne_nil_of_nonws
        have hany : l.any (fun d => !d.isWhitespace) = true := by
          rw [hasWsThenNonWs] at h
          rcases Bool.or_eq_true_iff.mp h with h' | h'
          · exact (Bool.and_eq_true_iff.mp h').2
          · exact hasWsThenNonWs_any l h'
        obtain ⟨c, hc, hcw⟩ := List.any_eq_true.mp hany
        exact ⟨c, hc, by simpa using hcw⟩
      have : 1 ≤ (splitWsAux l []).length :=
        Nat.succ_le_of_lt (List.length_pos.mpr hne)
      simpa using Nat.succ_le_succ this
    · rw [splitWsAux, if_neg ha]
      have h' : hasWsThenNonWs l = true := by
        rw [hasWsThenNonWs] at h
        rcases Bool.or_eq_true_iff.mp h with h' | h'
        · rw [(by simpa using ha : a.isWhitespace = false)] at h'
          cases (Bool.and_eq_true_iff.mp h').1
        · exact h'
      exact splitWsAux_two_le l (a :: acc) h' (by simp)

theorem lastNonWs_hasWsThenNonWs :
    ∀ (l : List Char) (d : Char), l.getLast? = some d →
      d.isWhitespace = false → (∃ c ∈ l, c.isWhitespace = true) →
      hasWsThenNonWs l = true
  | [], _, hd, _, _ => by cases hd
  | [x], d, hd, hdw, hws => by
    obtain ⟨c, hc, hcw⟩ := hws
    have hcx : c = x := List.mem_singleton.mp hc
    have hxd : x = d := by simpa using hd
    rw [hcx, hxd, hdw] at hcw
    cases hcw
  | x :: y :: t, d, hd, hdw, hws => by
    rw [List.getLast?_cons_cons] at hd
    rw [hasWsThenNonWs]
    by_cases hx : x.isWhitespace
    · have hdm : d ∈ y :: t := List.mem_of_getLast?_eq_some hd
      have hany : (y :: t).any (fun e => !e.isWhitespace) = true :=
        List.any_eq_true.mpr ⟨d, hdm, by simp [hdw]⟩
      rw [hx, hany]
      simp
    · have hws' : ∃ c ∈ y :: t, c.isWhitespace = true := by
        obtain ⟨c, hc, hcw⟩ := hws
        rcases List.mem_cons.mp hc with rfl | hc'
        · rw [hcw] at hx
          cases hx rfl
        · exact ⟨c, hc', hcw⟩
      rw [lastNonWs_hasWsThenNonWs (y :: t) d hd hdw hws']
      simp

theorem dropWhile_head_false (p : α → Bool) :
    ∀ (l : List α) {c : α} {rest : List α}, l.dropWhile p = c :: rest →
      p c = false
  | [], _, _, h => by cases h
  | x :: xs, c, rest, h => by
    by_cases hx : p x = true
    · rw [List.dropWhile_cons_of_pos hx] at h
      exact dropWhile_head_false p xs h
    · rw [List.dropWhile_cons_of_neg hx] at h
      cases h
      simpa using hx

theorem getLast?_dropWhile (p : α → Bool) :
    ∀ l : List α, l.dropWhile p ≠ [] →
      (l.dropWhile p).getLast? = l.getLast?
  | [], h => by cases h rfl
  | x :: xs, h => by
    by_cases hx : p x = true
    · rw [List.dropWhile_cons_of_pos hx] at h ⊢
      have hxs : xs ≠ [] := by
        intro hc
        rw [hc] at h
        exact h rfl
      obtain ⟨y, t, rfl⟩ := List.exists_cons_of_ne_nil hxs
      rw [List.getLast?_cons_cons]
      exact getLast?_dropWhile p (y :: t) h
    · rw [List.dropWhile_cons_of_neg hx]

theorem mem_stripL {c : Char} {l : List Char} (h : c ∈ stripL l) : c ∈ l := by
  unfold stripL at h
  rw [List.mem_reverse] at h
  have h1 := (List.dropWhile_sublist (l := (l.dropWhile
    Char.isWhitespace).reverse) Char.isWhitespace).subset h
  rw [List.mem_reverse] at h1
  exact (List.dropWhile_sublist Char.isWhitespace).subset h1

theorem stripL_ends {l : List Char} {c : Char} {rest : List Char}
    (h : stripL l = c :: rest) :
    c.isWhitespace = false ∧
      ∃ d, (c :: rest).getLast? = some d ∧ d.isWhitespace = false := by
  have hD : ((l.dropWhile Char.isWhitespace).reverse.dropWhile
      Char.isWhitespace) ≠ [] := by
    intro hc
    rw [stripL, hc] at h
    cases h
  obtain ⟨y, ys, hys⟩ := List.exists_cons_of_ne_nil hD
  constructor
  · -- head of the strip is the head of the first dropWhile
    have hhead : (c :: rest).head? = some c := rfl
    rw [← h, stripL, List.head?_reverse, getLast?_dropWhile _ _ hD,
      List.getLast?_reverse] at hhead
    -- hhead : (l.dropWhile Char.isWhitespace).head? = some c
    cases hE : l.dropWhile Char.isWhitespace with
    | nil =>
      rw [hE] at hhead
      cases hhead
    | cons e es =>
      rw [hE] at hhead
      have : e = c := by simpa using hhead
      rw [← this]
      exact dropWhile_head_false Char.isWhitespace l hE
  · -- last of the strip is the head of the second dropWhile
    have hlast : (c :: rest).getLast? = ((l.dropWhile
        Char.isWhitespace).reverse.dropWhile Char.isWhitespace).head? := by
      rw [← h, stripL, List.getLast?_reverse]
    rw [hys] at hlast
    refine ⟨y, by simpa using hlast, ?_⟩
    exact dropWhile_head_false Char.isWhitespace _ hys

theorem stripL_single_no_ws {v : List Char}
    (h1 : (splitWs (stripL v)).length = 1) :
    ∀ c ∈ stripL v, c.isWhitespace = false := by
  cases hs : stripL v with
  | nil =>
    rw [hs] at h1
    cases h1
  | cons c rest =>
    obtain ⟨hc, d, hd, hdw⟩ := stripL_ends hs
    intro e he
    by_contra hews
    have hews' : e.isWhitespace = true := by
      simpa using hews
    have herest : e ∈ rest := by
      rcases List.mem_cons.mp he with rfl | he'
      · rw [hc] at hews'
        cases hews'
      · exact he'
    have hrest_ne : rest ≠ [] := List.ne_nil_of_mem herest
    obtain ⟨r, t, rfl⟩ := List.exists_cons_of_ne_nil hrest_ne
    have hdrest : (r :: t).getLast? = some d := by
      rw [← List.getLast?_cons_cons (a := c)]
      exact hd
    have hWTN : hasWsThenNonWs (r :: t) = true :=
      lastNonWs_hasWsThenNonWs (r :: t) d hdrest hdw ⟨e, herest, hews'⟩
    have h2 : 2 ≤ (splitWsAux (r :: t) [c]).length :=
      splitWsAux_two_le (r :: t) [c] hWTN (by simp)
    have hsplit : splitWs (c :: r :: t) = splitWsAux (r :: t) [c] := by
      rw [splitWs, splitWsAux, if_neg (by simp [hc])]
    rw [hs, hsplit] at h1
    omega

theorem isUpperA_toLower (c : Char) : isUpperA (Char.toLower c) = false := by
  unfold Char.toLower
  by_cases h : c.toNat ≥ 65 ∧ c.toNat ≤ 90
  · rw [if_pos h]
    obtain ⟨h1, h2⟩ := h
    generalize hn : c.toNat = n at h1 h2
    interval_cases n <;> decide
  · rw [if_neg h]
    unfold isUpperA
    rcases Nat.lt_or_ge c.toNat 65 with h1 | h1
    · have hd : decide (65 ≤ c.toNat) = false := by
        simp
        omega
      rw [hd, Bool.false_and]
    · have h2 : ¬ c.toNat ≤ 90 := fun hc => h ⟨h1, hc⟩
      have hd : decide (c.toNat ≤ 90) = false := by
        simpa using h2
      rw [hd, Bool.and_false]

theorem no_upper_of_mem_map_toLower {c : Char} {l : List Char}
    (h : c ∈ l.map Char.toLower) : isUpperA c = false := by
  obtain ⟨c', -, rfl⟩ := List.mem_map.mp h
  exact isUpperA_toLower c'

theorem selLoop_mem {α : Type} (t : α → List Char)
    (good : List Char → Bool) (top_k : Nat) :
    ∀ (xs : List α) (seen tags : List (List Char)),
      ∀ w ∈ selLoop t good top_k xs seen tags,
        w ∈ tags ∨ (good w = true ∧ ∃ x ∈ xs, w = t x)
  | [], _, tags, w, hw => Or.inl hw
  | x :: xs, seen, tags, w, hw => by
    rw [selLoop] at hw
    by_cases hc : t x ∉ seen ∧ good (t x) = true
    · rw [if_pos hc] at hw
      by_cases hk : top_k ≤ (tags ++ [t x]).length
      · rw [if_pos hk] at hw
        rcases List.mem_append.mp hw with h | h
        · exact Or.inl h
        · rcases List.mem_singleton.mp h with rfl
          exact Or.inr ⟨hc.2, x, List.mem_cons_self _ _, rfl⟩
      · rw [if_neg hk] at hw
        rcases selLoop_mem t good top_k xs (t x :: seen) (tags ++ [t x]) w hw
          with h | ⟨hg, y, hy, hw'⟩
        · rcases List.mem_append.mp h with h' | h'
          · exact Or.inl h'
          · rcases List.mem_singleton.mp h' with rfl
            exact Or.inr ⟨hc.2, x, List.mem_cons_self _ _, rfl⟩
        · exact Or.inr ⟨hg, y, List.mem_cons_of_mem x hy, hw'⟩
    · rw [if_neg hc] at hw
      rcases selLoop_mem t good top_k xs seen tags w hw
        with h | ⟨hg, y, hy, hw'⟩
      · exact Or.inl h
      · exact Or.inr ⟨hg, y, List.mem_cons_of_mem x hy, hw'⟩

theorem selLoop_nodup {α : Type} (t : α → List Char)
    (good : List Char → Bool) (top_k : Nat) :
    ∀ (xs : List α) (seen tags : List (List Char)), tags.Nodup →
      (∀ w ∈ tags, w ∈ seen) → (selLoop t good top_k xs seen tags).Nodup
  | [], _, _, hnd, _ => hnd
  | x :: xs, seen, tags, hnd, hsub => by
    rw [selLoop]
    by_cases hc : t x ∉ seen ∧ good (t x) = true
    · rw [if_pos hc]
      have hnotin : t x ∉ tags := fun h => hc.1 (hsub _ h)
      have hnd2 : (tags ++ [t x]).Nodup := by
        simp [List.nodup_append, hnd, hnotin]
      by_cases hk : top_k ≤ (tags ++ [t x]).length
      · rw [if_pos hk]
        exact hnd2
      · rw [if_neg hk]
        refine selLoop_nodup t good top_k xs (t x :: seen) (tags ++ [t x])
          hnd2 ?_
        intro w hw
        rcases List.mem_append.mp hw with h | h
        · exact List.mem_cons_of_mem _ (hsub w h)
        · rcases List.mem_singleton.mp h with rfl
          exact List.mem_cons_self _ _
    · rw [if_neg hc]
      exact selLoop_nodup t good top_k xs seen tags hnd hsub

theorem selLoop_length_le {α : Type} (t : α → List Char)
    (good : List Char → Bool) (top_k : Nat) :
    ∀ (xs : List α) (seen tags : List (List Char)),
      tags.length < top_k → (selLoop t good top_k xs seen tags).length ≤ top_k
  | [], _, _, h => Nat.le_of_lt h
  | x :: xs, seen, tags, h => by
    rw [selLoop]
    by_cases hc : t x ∉ seen ∧ good (t x) = true
    · rw [if_pos hc]
      have hlen : (tags ++ [t x]).length = tags.length + 1 := by
        simp
      by_cases hk : top_k ≤ (tags ++ [t x]).length
      · rw [if_pos hk, hlen]
        omega
      · rw [if_neg hk]
        refine selLoop_length_le t good top_k xs _ _ ?_
        omega
    · rw [if_neg hc]
      exact selLoop_length_le t good top_k xs seen tags h

theorem selLoop_zero {α : Type} (t : α → List Char)
    (good : List Char → Bool) :
    ∀ (xs : List α) (seen : List (List Char)),
      (selLoop t good 0 xs seen []).length ≤ 1
  | [], _ => by simp [selLoop]
  | x :: xs, seen => by
    rw [selLoop]
    by_cases hc : t x ∉ seen ∧ good (t x) = true
    · rw [if_pos hc, if_pos (by simp)]
      simp
    · rw [if_neg hc]
      exact selLoop_zero t good xs seen

/-- The concrete environment of the C5 counterexample and witness: the
AI dependencies are unavailable, so the deterministic fallback runs. -/
def cexTagEnv : AutoTagEnv := ⟨false, fun _ _ => [], fun _ => true⟩

/-- Counterexample to C5 as stated: with `top_k = 0` the collection loop
appends the first accepted word before checking the cap, so the result
has one element, not at most `top_k = 0`. -/
theorem extract_tags_topk_zero_cex :
    ¬ ((extract_single_word_tags cexTagEnv
        (['g', 'o', 'o', 'd'] : List Char) [] 0).length ≤ 0) := by
  decide

/-- C5 (amended).  Every tag extracted by `extract_single_word_tags` (and
hence stored by `auto_tag_question`) — on either the fallback or the AI
path, for any keyword-model output and POS oracle — contains no
whitespace, contains no uppercase ASCII letter, has length greater than 2
and is not composed only of digits; the list has no duplicates; and its
length is at most `max top_k 1` — at most `top_k` for every `top_k ≥ 1`,
while `top_k = 0` still yields up to one tag because the cap is only
checked after the first append. -/
theorem extract_tags_well_formed (env : AutoTagEnv)
    (title body : List Char) (top_k : Nat) :
    (∀ w ∈ extract_single_word_tags env title body top_k,
      (∀ c ∈ w, c.isWhitespace = false) ∧ (∀ c ∈ w, isUpperA c = false) ∧
        2 < w.length ∧ pyIsDigit w = false) ∧
    (extract_single_word_tags env title body top_k).Nodup ∧
    (extract_single_word_tags env title body top_k).length ≤ max top_k 1 ∧
    auto_tag_question env title body top_k =
      extract_single_word_tags env title body top_k := by
  cases hai : env.aiAvailable with
  | false =>
    have hred : extract_single_word_tags env title body top_k =
        selLoop (fun w => w)
          (fun w => is_good_single_word env w && decide (3 < w.length))
          top_k (splitWs (clean_text (title ++ ' ' :: body))) [] [] := by
      rw [extract_single_word_tags, if_pos hai, extract_tags_fallback]
    refine ⟨?_, ?_, ?_, rfl⟩
    · intro w hw
      rcases selLoop_mem _ _ top_k _ [] [] w (hred ▸ hw)
        with h | ⟨hg, x, hx, hwx⟩
      · cases h
      · have hx' : w ∈ splitWs (clean_text (title ++ ' ' :: body)) := by
          rw [hwx]
          exact hx
        have hg' := Bool.and_eq_true_iff.mp hg
        rw [is_good_single_word, if_pos hai] at hg'
        have hg1 := Bool.and_eq_true_iff.mp hg'.1
        have hg2 := Bool.and_eq_true_iff.mp hg1.1
        have hg3 := Bool.and_eq_true_iff.mp hg2.1
        refine ⟨?_, ?_, of_decide_eq_true hg2.2, ?_⟩
        · exact splitWsAux_no_ws _ [] (by simp) w hx'
        · intro c hc
          have hcin : c ∈ clean_text (title ++ ' ' :: body) :=
            splitWsAux_subset _ [] (fun d hd => hd) (by simp) w hx' c hc
          exact no_upper_of_mem_map_toLower (mem_stripL hcin)
        · have := hg3.2
          simpa using this
    · exact hred ▸ selLoop_nodup _ _ top_k _ [] [] List.nodup_nil (by simp)
    · rw [hred]
      cases top_k with
      | zero =>
        simpa using selLoop_zero _ _ _ []
      | succ k =>
        have h := selLoop_length_le (fun w => w)
          (fun w => is_good_single_word env w && decide (3 < w.length))
          (k + 1) (splitWs (clean_text (title ++ ' ' :: body))) [] []
          (by simp)
        omega
  | true =>
    have hred : extract_single_word_tags env title body top_k =
        selLoop (fun p => stripL (p.1.map Char.toLower))
          (fun w => is_good_single_word env w) top_k
          (env.rawKeywords (clean_text (title ++ ' ' :: body)) (top_k + 20))
          [] [] := by
      rw [extract_single_word_tags, if_neg (by simp [hai])]
    refine ⟨?_, ?_, ?_, rfl⟩
    · intro w hw
      rcases selLoop_mem _ _ top_k _ [] [] w (hred ▸ hw)
        with h | ⟨hg, x, hx, hwx⟩
      · cases h
      · rw [is_good_single_word, if_neg (by simp [hai])] at hg
        have hg1 := Bool.and_eq_true_iff.mp hg
        have hg2 := Bool.and_eq_true_iff.mp hg1.1
        have hg3 := Bool.and_eq_true_iff.mp hg2.1
        subst hwx
        have hsplit1 : (splitWs (stripL (x.1.map Char.toLower))).length = 1 :=
          of_decide_eq_true hg3.1
        refine ⟨?_, ?_, of_decide_eq_true hg1.2, ?_⟩
        · exact stripL_single_no_ws hsplit1
        · intro c hc
          exact no_upper_of_mem_map_toLower (mem_stripL hc)
        · have := hg2.2
          simpa using this
    · exact hred ▸ selLoop_nodup _ _ top_k _ [] [] List.nodup_nil (by simp)
    · rw [hred]
      cases top_k with
      | zero =>
        simpa using selLoop_zero _ _ _ []
      | succ k =>
        have h := selLoop_length_le (fun p => stripL (p.1.map Char.toLower))
          (fun w => is_good_single_word env w) (k + 1)
          (env.rawKeywords (clean_text (title ++ ' ' :: body)) (k + 1 + 20))
          [] [] (by simp)
        omega

/-- Witness for C5's amended theorem: instantiates the per-tag conjunct
at the tag extracted from the title "good" and the no-duplicates
conjunct. -/
theorem extract_tags_well_formed_witness :
    pyIsDigit ['g', 'o', 'o', 'd'] = false ∧
    2 < (['g', 'o', 'o', 'd'] : List Char).length ∧
    (extract_single_word_tags cexTagEnv ['g', 'o', 'o', 'd'] [] 5).Nodup :=
  ⟨((extract_tags_well_formed cexTagEnv ['g', 'o', 'o', 'd'] [] 5).1
      ['g', 'o', 'o', 'd'] (by decide)).2.2.2,
   ((extract_tags_well_formed cexTagEnv ['g', 'o', 'o', 'd'] [] 5).1
      ['g', 'o', 'o', 'd'] (by decide)).2.2.1,
   (extract_tags_well_formed cexTagEnv ['g', 'o', 'o', 'd'] [] 5).2.1⟩

end GANster
